import Mathlib

/-!
Shallow embedding of the numerical core of the `mantis` power-system
analysis engine (files `src/case.rs` and `src/loadflow.rs`).

Modelling conventions:

* Rust `f32`/`f64` arithmetic is modelled over `ℚ` (exact field
  arithmetic; the properties proved here are structural and sign-level,
  so floating-point rounding is out of scope).
* Rust `HashMap<usize, _>` is modelled as an association list
  `List (Nat × _)` whose `alInsert` has the overwrite semantics of
  `HashMap::insert` and whose `alLookup` is `HashMap::get`.
* Rust `panic!` (an `unwrap()` of a missing map entry) is modelled by
  returning `none`; a normally returned value is `some _`.
* `rsparse::lusol` (sparse LU) and `nalgebra::try_inverse` followed by a
  matrix-vector product are both modelled as exact Gaussian elimination
  `gaussSolve`, which returns `none` exactly on a singular system.
* Trigonometric functions and the degree conversion are not rational:
  the embedding is parametrised by `cosF sinF : ℚ → ℚ` (the iteration
  uses them exactly where the source calls `cos`/`sin`) and by a
  constant `c : ℚ` standing for `180/π`, so `x.to_degrees()` becomes
  `x * c` and `x * PI / 180` becomes `x / c`.
* Angle-map values inside the solvers are radians, exactly as in the
  source; solution records hold `radians * c` ("degrees").
-/

namespace Mantis

inductive BusType where
  | Slack
  | PQ
  | PV
  | OOS
deriving DecidableEq

/-- `case.rs` `Bus`, restricted to the fields the solvers and the claims
read (identifier, type, status, voltage state and the two bus-level
shunt fields; the remaining source fields are never read by
`loadflow.rs`). `angle` is stored in degrees, as in the source. -/
structure Bus where
  bus_id : Nat
  bus_type : BusType
  bus_status : Bool
  voltage : ℚ
  angle : ℚ
  real_shunt : ℚ
  imag_shunt : ℚ
deriving DecidableEq

/-- `case.rs` `Branch`, restricted to the fields the solvers read plus
the fields the claims mention (`tap_ratio`, `phase_shift` and the shunt
conductances are present in the source and never read by the solver). -/
structure Branch where
  id : Nat
  from_bus : Nat
  to_bus : Nat
  branch_status : Bool
  resistance : ℚ
  reactance : ℚ
  from_shunt_conductance : ℚ
  from_shunt_susceptance : ℚ
  to_shunt_conductance : ℚ
  to_shunt_susceptance : ℚ
  tap_ratio : ℚ
  phase_shift : ℚ
deriving DecidableEq

/-- `case.rs` `Load` (identifier field dropped; never read). -/
structure Load where
  bus_id : Nat
  real_load : ℚ
  imag_load : ℚ
deriving DecidableEq

/-- `case.rs` `Generator`, fields read by the solvers. -/
structure Generator where
  gen_bus_id : Nat
  gen_status : Bool
  p_gen : ℚ
  q_gen : ℚ
deriving DecidableEq

/-- `case.rs` `FixedShunt`. -/
structure FixedShunt where
  bus_id : Nat
  status : Bool
  gl : ℚ
  bl : ℚ
deriving DecidableEq

/-- `case.rs` `Network` (name / frequency strings and the unused
switched-shunt, area and zone lists dropped). `bus_map` is the stored
`bus_id -> matrix index` map, rebuilt by `rebuild_bus_map`. -/
structure Network where
  s_base : ℚ
  buses : List Bus
  branches : List Branch
  loads : List Load
  generators : List Generator
  fixed_shunts : List FixedShunt
  bus_map : List (Nat × Nat)
deriving DecidableEq

/-- `loadflow.rs` `DcSolution` (maps modelled as association lists). -/
structure DcSolution where
  bus_angles : List (Nat × ℚ)
  branch_flows : List (Nat × ℚ)
deriving DecidableEq

/-- `loadflow.rs` `AcSolution`. -/
structure AcSolution where
  bus_voltages : List (Nat × ℚ)
  bus_angles : List (Nat × ℚ)
  log : List String
deriving DecidableEq

/-! ### Association lists with `HashMap` semantics -/

/-- `HashMap::get`. -/
def alLookup {α : Type} (k : Nat) : List (Nat × α) → Option α
  | [] => none
  | p :: ps => if p.1 = k then some p.2 else alLookup k ps

/-- `HashMap::insert`: overwrite an existing binding, else append. -/
def alInsert {α : Type} (k : Nat) (v : α) : List (Nat × α) → List (Nat × α)
  | [] => [(k, v)]
  | p :: ps => if p.1 = k then (k, v) :: ps else p :: alInsert k v ps

/-- In-place update of an existing binding
(`*map.get_mut(&k).unwrap() op= _`).  In the solver the looked-up key is
always present (all these maps are seeded with one entry per bus of the
same bus list that is later walked), so the no-op on a missing key is
unobservable; the source would panic there. -/
def alModify {α : Type} (k : Nat) (f : α → α) : List (Nat × α) → List (Nat × α)
  | [] => []
  | p :: ps => if p.1 = k then (p.1, f p.2) :: ps else p :: alModify k f ps

/-- `map[&k]` / `map.get(&k).unwrap()` in a context where the key is
known to be present (same remark as `alModify`). -/
def alGet {α : Type} [Inhabited α] (k : Nat) (m : List (Nat × α)) : α :=
  (alLookup k m).getD default

/-! ### Exact linear solver

Models both `rsparse::lusol` (DC) and `try_inverse` + multiply (NR):
an exact solve of `A·x = b` from an augmented row list `[A | b]`,
failing precisely when elimination finds no nonzero pivot, the
behaviour the spec assigns to both solvers ("fails with SINGULAR"). -/

/-- Find a row with a nonzero leading coefficient (partial pivoting). -/
def pickRow : List (List ℚ) → Option (List ℚ × List (List ℚ))
  | [] => none
  | r :: rs =>
    if r.headD 0 ≠ 0 then some (r, rs)
    else
      match pickRow rs with
      | some (p, rest) => some (p, r :: rest)
      | none => none

/-- Eliminate the leading column of `row` using `pivot`. -/
def reduceRow (pivot row : List ℚ) : List ℚ :=
  match pivot, row with
  | ph :: pt, rh :: rt => List.zipWith (fun pv rv => rv - rh / ph * pv) pt rt
  | _, _ => []

/-- Back-substitution step: `p = a₀ :: (a₁ … aₘ, rhs)`, solutions `xs`
for the later variables give `x₀ = (rhs - Σ aᵢ₊₁ xsᵢ) / a₀`. -/
def backSub (p : List ℚ) (xs : List ℚ) : ℚ :=
  match p with
  | [] => 0
  | a0 :: t => (t.getD xs.length 0 - (List.zipWith (· * ·) t xs).sum) / a0

def gaussAux : Nat → List (List ℚ) → Option (List ℚ)
  | 0, _ => some []
  | fuel + 1, rows =>
    match rows with
    | [] => some []
    | _ :: _ =>
      match pickRow rows with
      | none => none
      | some (p, rest) =>
        match gaussAux fuel (rest.map (reduceRow p)) with
        | none => none
        | some xs => some (backSub p xs :: xs)

/-- Solve the augmented system `[A | b]`; `none` iff singular. -/
def gaussSolve (rows : List (List ℚ)) : Option (List ℚ) :=
  gaussAux rows.length rows

/-! ### `case.rs`: `rebuild_bus_map` -/

/-- The fold body of `Network::rebuild_bus_map`: walk the buses in
order, assigning consecutive matrix indices to every bus whose type is
not `Slack`. -/
def busMapFold (buses : List Bus) (st : List (Nat × Nat) × Nat) :
    List (Nat × Nat) × Nat :=
  buses.foldl
    (fun p b =>
      if b.bus_type = BusType.Slack then p
      else (alInsert b.bus_id p.2 p.1, p.2 + 1))
    st

/-- `Network::rebuild_bus_map` (`case.rs`). -/
def rebuild_bus_map (net : Network) : Network :=
  { net with bus_map := (busMapFold net.buses ([], 0)).1 }

/-! ### `loadflow.rs`: DC approximation

The source accumulates `B'` as a triplet list and calls `sum_dupl`;
the summed matrix is modelled directly as a total function on indices,
`setAdd` being one `append` (they commute, so the function equals the
compacted triplet matrix). -/

/-- One triplet `append` into the summed matrix. -/
def setAdd (M : Nat → Nat → ℚ) (i j : Nat) (v : ℚ) : Nat → Nat → ℚ :=
  fun r c => if r = i ∧ c = j then M r c + v else M r c

/-- Contribution of one branch to `B'` (loop body in
`dc_approximation`, lines 42-72 of `loadflow.rs`). -/
def bPrimeStep (busMap : List (Nat × Nat)) (M : Nat → Nat → ℚ)
    (br : Branch) : Nat → Nat → ℚ :=
  if br.branch_status = false ∨ br.reactance = 0 then M
  else
    let b : ℚ := -1 / br.reactance
    match alLookup br.from_bus busMap, alLookup br.to_bus busMap with
    | some i, some j =>
        setAdd (setAdd (setAdd (setAdd M i i b) j j b) i j (-b)) j i (-b)
    | some i, none => setAdd M i i b
    | none, some j => setAdd M j j b
    | none, none => M

/-- The assembled `B'` matrix of `dc_approximation`. -/
def bPrimeMat (net : Network) : Nat → Nat → ℚ :=
  net.branches.foldl (bPrimeStep net.bus_map) (fun _ _ => 0)

/-- The DC injection vector `P` (generators minus loads, per unit). -/
def dcInjections (net : Network) (n : Nat) : List ℚ :=
  let p0 := List.replicate n (0 : ℚ)
  let p1 := net.generators.foldl
    (fun p g =>
      if g.gen_status then
        match alLookup g.gen_bus_id net.bus_map with
        | some idx => p.set idx (p.getD idx 0 + g.p_gen / net.s_base)
        | none => p
      else p)
    p0
  net.loads.foldl
    (fun p l =>
      match alLookup l.bus_id net.bus_map with
      | some idx => p.set idx (p.getD idx 0 - l.real_load / net.s_base)
      | none => p)
    p1

/-- The `rsparse::lusol` call of `dc_approximation`: solve
`B' · θ = P` over the `bus_map`-indexed system. -/
def dcSolve (net : Network) : Option (List ℚ) :=
  let n := net.bus_map.length
  gaussSolve ((List.range n).map (fun i =>
    (List.range n).map (fun j => bPrimeMat net i j) ++
      [(dcInjections net n).getD i 0]))

/-- The first angle loop of `dc_approximation` (lines 106-111): slack
buses are inserted at `0.0` degrees. -/
def dcSlackStep (m : List (Nat × ℚ)) (b : Bus) : List (Nat × ℚ) :=
  if b.bus_type = BusType.Slack then alInsert b.bus_id (0 : ℚ) m else m

/-- The second angle loop of `dc_approximation` (lines 113-118):
non-slack buses take the solved angle times the degree factor `c`. -/
def dcAngleStep (busMap : List (Nat × Nat)) (theta : List ℚ) (c : ℚ)
    (m : List (Nat × ℚ)) (b : Bus) : List (Nat × ℚ) :=
  match alLookup b.bus_id busMap with
  | some idx => alInsert b.bus_id (theta.getD idx 0 * c) m
  | none => m

/-- The branch-flow loop of `dc_approximation` (lines 120-141). -/
def dcFlowStep (busMap : List (Nat × Nat)) (theta : List ℚ) (sBase : ℚ)
    (m : List (Nat × ℚ)) (br : Branch) : List (Nat × ℚ) :=
  if br.branch_status = false ∨ br.reactance = 0 then m
  else
    let ti := (alLookup br.from_bus busMap).elim 0
      (fun idx => theta.getD idx 0)
    let tj := (alLookup br.to_bus busMap).elim 0
      (fun idx => theta.getD idx 0)
    alInsert br.id ((ti - tj) / br.reactance * sBase) m

/-- `Network::dc_approximation` (`loadflow.rs`).  `c` stands for
`180/π`: the source's `to_degrees()` is `(· * c)`. -/
def dc_approximation (c : ℚ) (net : Network) : Option DcSolution :=
  let n := net.bus_map.length
  if n = 0 then none
  else
    match dcSolve net with
    | none => none
    | some theta =>
      let angles0 := net.buses.foldl dcSlackStep []
      let bus_angles := net.buses.foldl
        (dcAngleStep net.bus_map theta c) angles0
      let branch_flows := net.branches.foldl
        (dcFlowStep net.bus_map theta net.s_base) []
      some ⟨bus_angles, branch_flows⟩

/-! ### `loadflow.rs`: Y-bus assembly

Complex values are pairs `(re, im) : ℚ × ℚ` with pointwise addition. -/

/-- `1/z` for `z = (r, x)`, with the source's explicit
`|z|² = 0 → 0` guard (`build_ybus_matrix`, lines 516-523). -/
def cinv (z : ℚ × ℚ) : ℚ × ℚ :=
  let n := z.1 * z.1 + z.2 * z.2
  if n = 0 then (0, 0) else (z.1 / n, -z.2 / n)

/-- One triplet `append` into the summed complex matrix. -/
def setAddC (M : Nat → Nat → ℚ × ℚ) (i j : Nat) (v : ℚ × ℚ) :
    Nat → Nat → ℚ × ℚ :=
  fun r c => if r = i ∧ c = j then M r c + v else M r c

/-- Contribution of one branch to the Y-bus (loop body of
`build_ybus_matrix`, lines 507-543).  `none` models the
`bus_idx_map.get(..).unwrap()` panic on an unresolvable bus id. -/
def ybusBranchStep (busIdxMap : List (Nat × Nat))
    (M : Nat → Nat → ℚ × ℚ) (br : Branch) : Option (Nat → Nat → ℚ × ℚ) :=
  if br.branch_status = false then some M
  else
    match alLookup br.from_bus busIdxMap, alLookup br.to_bus busIdxMap with
    | some fi, some ti =>
        let y := cinv (br.resistance, br.reactance)
        let ysf : ℚ × ℚ := (0, br.from_shunt_susceptance)
        let yst : ℚ × ℚ := (0, br.to_shunt_susceptance)
        some (setAddC (setAddC (setAddC (setAddC M fi fi (y + ysf))
          ti ti (y + yst)) fi ti (-y)) ti fi (-y))
    | _, _ => none

/-- Contribution of one in-service fixed shunt (`build_ybus_matrix`,
lines 546-555). -/
def ybusShuntStep (sBase : ℚ) (busIdxMap : List (Nat × Nat))
    (M : Nat → Nat → ℚ × ℚ) (sh : FixedShunt) :
    Option (Nat → Nat → ℚ × ℚ) :=
  if sh.status = false then some M
  else
    match alLookup sh.bus_id busIdxMap with
    | some k => some (setAddC M k k (sh.gl / sBase, sh.bl / sBase))
    | none => none

/-- `Network::build_ybus_matrix`: assemble, then densify to a
`num_buses × num_buses` row list (the source's `to_dense` +
`DMatrix::from_fn`). -/
def build_ybus_matrix (net : Network) (busIdxMap : List (Nat × Nat)) :
    Option (List (List (ℚ × ℚ))) :=
  let numBuses := net.buses.length
  match net.branches.foldl
      (fun om br => om.bind (fun M => ybusBranchStep busIdxMap M br))
      (some (fun _ _ => (0, 0)) : Option (Nat → Nat → ℚ × ℚ)) with
  | none => none
  | some M1 =>
    match net.fixed_shunts.foldl
        (fun om sh => om.bind (fun M => ybusShuntStep net.s_base busIdxMap M sh))
        (some M1) with
    | none => none
    | some M2 =>
        some ((List.range numBuses).map (fun r =>
          (List.range numBuses).map (fun c => M2 r c)))

/-! ### `loadflow.rs`: Newton-Raphson solver

Log strings follow the source `format!` calls; numeric formatting
(`{:.6}` on a float) is abstracted to `toString` of the exact value. -/

def tolNR : ℚ := 1 / 1000000

def startMsg : String := "Starting Newton-Raphson power flow solution."

def noBusesMsg : String := "No buses found in the network."

def multipleSlackMsg : String :=
  "Multiple slack buses found, which is not allowed for Newton-Raphson."

def noSlackMsg : String :=
  "No slack bus found, which is required for Newton-Raphson."

def slackIdMsg (i : Nat) : String := "Slack bus ID: " ++ toString i

def pvListMsg (l : List Nat) : String := "PV buses: " ++ toString l

def pqListMsg (l : List Nat) : String := "PQ buses: " ++ toString l

def ybusBuiltMsg : String := "Y-bus matrix built."

def iterStartMsg (k : Nat) : String :=
  "Newton-Raphson iteration: " ++ toString k

def jacobianFormedMsg (k : Nat) : String :=
  "Jacobian matrix formed for iteration " ++ toString k ++ "."

def singularMsg : String :=
  "Jacobian is singular, cannot solve for corrections."

def correctionsMsg (k : Nat) : String :=
  "Corrections calculated for iteration " ++ toString k ++ "."

def maxMismatchMsg (k : Nat) (m : ℚ) : String :=
  "Max mismatch for iteration " ++ toString k ++ ": " ++ toString m

def convergedMsg (k : Nat) : String :=
  "Newton-Raphson converged in " ++ toString k ++ " iterations."

def notConvergedMsg : String :=
  "Newton-Raphson failed to converge after 100 iterations."

/-- Result of the bus-classification scan (`newton_raphson_solution`,
lines 172-200): either the early `Multiple slack` return was taken, or
the scan finished with the optional slack id and the PV / PQ id lists. -/
inductive ScanOut where
  | multiple : ScanOut
  | done : Option Nat → List Nat → List Nat → ScanOut
deriving DecidableEq

/-- The bus-classification loop of `newton_raphson_solution`. -/
def scanBuses : List Bus → Option Nat → List Nat → List Nat → ScanOut
  | [], s, pv, pq => ScanOut.done s pv pq
  | b :: bs, s, pv, pq =>
    match b.bus_type with
    | BusType.Slack =>
      match s with
      | some _ => ScanOut.multiple
      | none => scanBuses bs (some b.bus_id) pv pq
    | BusType.PV => scanBuses bs s (pv ++ [b.bus_id]) pq
    | BusType.PQ => scanBuses bs s pv (pq ++ [b.bus_id])
    | BusType.OOS => scanBuses bs s pv pq

/-- `bus_idx_map`: every bus in insertion order to its position. -/
def mkBusIdxMap (buses : List Bus) : List (Nat × Nat) :=
  buses.enum.foldl (fun m p => alInsert p.2.bus_id p.1 m) []

/-- Seed `p_scheduled` / `q_scheduled` with `0.0` for every bus. -/
def schedInit (buses : List Bus) : List (Nat × ℚ) :=
  buses.foldl (fun m b => alInsert b.bus_id (0 : ℚ) m) []

/-- One in-service generator's contribution to the scheduled powers;
`none` models the `get_mut(..).unwrap()` panic on a generator at an
unknown bus id. -/
def schedGenStep (sBase : ℚ) (m : List (Nat × ℚ) × List (Nat × ℚ))
    (g : Generator) : Option (List (Nat × ℚ) × List (Nat × ℚ)) :=
  if g.gen_status then
    match alLookup g.gen_bus_id m.1, alLookup g.gen_bus_id m.2 with
    | some p0, some q0 =>
        some (alInsert g.gen_bus_id (p0 + g.p_gen / sBase) m.1,
              alInsert g.gen_bus_id (q0 + g.q_gen / sBase) m.2)
    | _, _ => none
  else some m

def schedGensGo (sBase : ℚ) (gens : List Generator)
    (o : Option (List (Nat × ℚ) × List (Nat × ℚ))) :
    Option (List (Nat × ℚ) × List (Nat × ℚ)) :=
  gens.foldl (fun o g => o.bind (fun m => schedGenStep sBase m g)) o

/-- Generator contributions to the scheduled powers (lines 223-230). -/
def schedGens (sBase : ℚ) (gens : List Generator)
    (m0 : List (Nat × ℚ) × List (Nat × ℚ)) :
    Option (List (Nat × ℚ) × List (Nat × ℚ)) :=
  schedGensGo sBase gens (some m0)

/-- One load's contribution to the scheduled powers; `none` models the
`get_mut(..).unwrap()` panic on a load at an unknown bus id. -/
def schedLoadStep (sBase : ℚ) (m : List (Nat × ℚ) × List (Nat × ℚ))
    (l : Load) : Option (List (Nat × ℚ) × List (Nat × ℚ)) :=
  match alLookup l.bus_id m.1, alLookup l.bus_id m.2 with
  | some p0, some q0 =>
      some (alInsert l.bus_id (p0 - l.real_load / sBase) m.1,
            alInsert l.bus_id (q0 - l.imag_load / sBase) m.2)
  | _, _ => none

def schedLoadsGo (sBase : ℚ) (loads : List Load)
    (o : Option (List (Nat × ℚ) × List (Nat × ℚ))) :
    Option (List (Nat × ℚ) × List (Nat × ℚ)) :=
  loads.foldl (fun o l => o.bind (fun m => schedLoadStep sBase m l)) o

/-- Load contributions to the scheduled powers (lines 232-237). -/
def schedLoads (sBase : ℚ) (loads : List Load)
    (m0 : List (Nat × ℚ) × List (Nat × ℚ)) :
    Option (List (Nat × ℚ) × List (Nat × ℚ)) :=
  schedLoadsGo sBase loads (some m0)

/-- Initial `v` / `delta` maps (lines 243-252): the slack bus is forced
to `V = 1.0`, `δ = 0`; every other bus takes its stored voltage and its
stored angle converted from degrees to radians (`* PI / 180`, i.e.
`/ c`). -/
def initStep (c : ℚ) (slackId : Nat)
    (vd : List (Nat × ℚ) × List (Nat × ℚ)) (b : Bus) :
    List (Nat × ℚ) × List (Nat × ℚ) :=
  if b.bus_id = slackId then
    (alInsert b.bus_id (1 : ℚ) vd.1, alInsert b.bus_id (0 : ℚ) vd.2)
  else
    (alInsert b.bus_id b.voltage vd.1, alInsert b.bus_id (b.angle / c) vd.2)

def initVD (c : ℚ) (slackId : Nat) (buses : List Bus) :
    List (Nat × ℚ) × List (Nat × ℚ) :=
  buses.foldl (initStep c slackId) ([], [])

/-- Dense Y-bus access `y_bus[(i, k)]`. -/
def yAt (Y : List (List (ℚ × ℚ))) (i k : Nat) : ℚ × ℚ :=
  (Y.getD i []).getD k (0, 0)

/-- Calculated active injections `p_calc` (lines 262-289), positional
by bus index. -/
def calcP (cosF sinF : ℚ → ℚ) (buses : List Bus) (Y : List (List (ℚ × ℚ)))
    (v delta : List (Nat × ℚ)) : List ℚ :=
  buses.enum.map (fun ib =>
    let vi := alGet ib.2.bus_id v
    let di := alGet ib.2.bus_id delta
    vi * (buses.enum.map (fun kb =>
      let vk := alGet kb.2.bus_id v
      let dk := alGet kb.2.bus_id delta
      let y := yAt Y ib.1 kb.1
      vk * (y.1 * cosF (di - dk) + y.2 * sinF (di - dk)))).sum)

/-- Calculated reactive injections `q_calc`. -/
def calcQ (cosF sinF : ℚ → ℚ) (buses : List Bus) (Y : List (List (ℚ × ℚ)))
    (v delta : List (Nat × ℚ)) : List ℚ :=
  buses.enum.map (fun ib =>
    let vi := alGet ib.2.bus_id v
    let di := alGet ib.2.bus_id delta
    vi * (buses.enum.map (fun kb =>
      let vk := alGet kb.2.bus_id v
      let dk := alGet kb.2.bus_id delta
      let y := yAt Y ib.1 kb.1
      vk * (y.1 * sinF (di - dk) - y.2 * cosF (di - dk)))).sum)

/-- The mismatch vector `delta_p_q` (lines 291-311): ΔP for every bus
whose id is not the slack id, in insertion order, then ΔQ for every
PQ-typed bus in insertion order. -/
def mismatchVec (slackId : Nat) (buses : List Bus)
    (pS qS : List (Nat × ℚ)) (pC qC : List ℚ)
    (busIdx : List (Nat × Nat)) : List ℚ :=
  let dP := buses.filterMap (fun b =>
    if b.bus_id = slackId then none
    else some (alGet b.bus_id pS - pC.getD ((alLookup b.bus_id busIdx).getD 0) 0))
  let dQ := buses.filterMap (fun b =>
    if b.bus_type = BusType.PQ then
      some (alGet b.bus_id qS - qC.getD ((alLookup b.bus_id busIdx).getD 0) 0)
    else none)
  dP ++ dQ

/-- One step of the index-map walk (lines 319-329): skip the slack id,
assign the next non-slack index, and additionally the next PQ index for
a PQ-typed bus. -/
def idxStep (slackId : Nat)
    (st : (List (Nat × Nat) × Nat) × (List (Nat × Nat) × Nat)) (b : Bus) :
    (List (Nat × Nat) × Nat) × (List (Nat × Nat) × Nat) :=
  if b.bus_id = slackId then st
  else
    let ns := (alInsert b.bus_id st.1.2 st.1.1, st.1.2 + 1)
    if b.bus_type = BusType.PQ then
      (ns, (alInsert b.bus_id st.2.2 st.2.1, st.2.2 + 1))
    else (ns, st.2)

/-- `non_slack_bus_to_idx` / `pq_bus_to_idx` and their counters
(lines 313-332), built in one walk exactly as in the source:
result `((nsMap, nns), (pqMap, npq))`. -/
def idxMapsFold (slackId : Nat) (buses : List Bus) :
    (List (Nat × Nat) × Nat) × (List (Nat × Nat) × Nat) :=
  buses.foldl (idxStep slackId) (([], 0), ([], 0))

/-- Matrix-entry assignment `m[(i, j)] = v`. -/
def setEntry (M : Nat → Nat → ℚ) (i j : Nat) (v : ℚ) : Nat → Nat → ℚ :=
  fun r c => if r = i ∧ c = j then v else M r c

/-- The four Jacobian blocks. -/
structure JacBlocks where
  j11 : Nat → Nat → ℚ
  j12 : Nat → Nat → ℚ
  j21 : Nat → Nat → ℚ
  j22 : Nat → Nat → ℚ

/-- Inner-loop body of the Jacobian population (lines 341-413) for the
bus pair `(bi, bk)`. -/
def jacobianStep (cosF sinF : ℚ → ℚ) (busIdx nsIdx pqIdx : List (Nat × Nat))
    (Y : List (List (ℚ × ℚ))) (v delta : List (Nat × ℚ))
    (pC qC : List ℚ) (bi bk : Bus) (J : JacBlocks) : JacBlocks :=
  let i := (alLookup bi.bus_id nsIdx).getD 0
  let k := (alLookup bk.bus_id nsIdx).getD 0
  let vi := alGet bi.bus_id v
  let di := alGet bi.bus_id delta
  let piC := pC.getD ((alLookup bi.bus_id busIdx).getD 0) 0
  let qiC := qC.getD ((alLookup bi.bus_id busIdx).getD 0) 0
  let vk := alGet bk.bus_id v
  let dk := alGet bk.bus_id delta
  let y := yAt Y ((alLookup bi.bus_id busIdx).getD 0)
    ((alLookup bk.bus_id busIdx).getD 0)
  let ad := di - dk
  let J1 : JacBlocks :=
    { J with j11 :=
        if i = k then setEntry J.j11 i k (-qiC - vi * vk * y.2)
        else setEntry J.j11 i k (-vi * vk * (y.1 * sinF ad - y.2 * cosF ad)) }
  let J2 : JacBlocks :=
    if bk.bus_type = BusType.PQ then
      let kpq := (alLookup bk.bus_id pqIdx).getD 0
      { J1 with j12 :=
          if i = k then setEntry J1.j12 i kpq (piC / vi + vi * y.1)
          else setEntry J1.j12 i kpq (vi * (y.1 * cosF ad + y.2 * sinF ad)) }
    else J1
  let J3 : JacBlocks :=
    if bi.bus_type = BusType.PQ then
      let ipq := (alLookup bi.bus_id pqIdx).getD 0
      { J2 with j21 :=
          if i = k then setEntry J2.j21 ipq k (piC - vi * vk * y.1)
          else setEntry J2.j21 ipq k (vi * vk * (y.1 * cosF ad + y.2 * sinF ad)) }
    else J2
  if bi.bus_type = BusType.PQ ∧ bk.bus_type = BusType.PQ then
    let ipq := (alLookup bi.bus_id pqIdx).getD 0
    let kpq := (alLookup bk.bus_id pqIdx).getD 0
    { J3 with j22 :=
        if i = k then setEntry J3.j22 ipq kpq (qiC / vi - vi * y.2)
        else setEntry J3.j22 ipq kpq (vi * (y.1 * sinF ad - y.2 * cosF ad)) }
  else J3

/-- The double loop over non-slack bus pairs populating the blocks. -/
def jacobianBlocks (cosF sinF : ℚ → ℚ) (slackId : Nat) (buses : List Bus)
    (busIdx nsIdx pqIdx : List (Nat × Nat)) (Y : List (List (ℚ × ℚ)))
    (v delta : List (Nat × ℚ)) (pC qC : List ℚ) : JacBlocks :=
  buses.foldl
    (fun J bi =>
      if bi.bus_id = slackId then J
      else
        buses.foldl
          (fun J bk =>
            if bk.bus_id = slackId then J
            else jacobianStep cosF sinF busIdx nsIdx pqIdx Y v delta pC qC bi bk J)
          J)
    ⟨fun _ _ => 0, fun _ _ => 0, fun _ _ => 0, fun _ _ => 0⟩

/-- `DMatrix::from_fn` assembling the blocks (lines 414-425). -/
def jacobianMatrix (nns _npq : Nat) (J : JacBlocks) : Nat → Nat → ℚ :=
  fun r c =>
    if r < nns ∧ c < nns then J.j11 r c
    else if r < nns ∧ nns ≤ c then J.j12 r (c - nns)
    else if nns ≤ r ∧ c < nns then J.j21 (r - nns) c
    else J.j22 (r - nns) (c - nns)

/-- State of the update walk (lines 441-465). -/
structure UpdSt where
  v : List (Nat × ℚ)
  delta : List (Nat × ℚ)
  maxMismatch : ℚ
  next : Nat
deriving DecidableEq

/-- One step of the update walk: skip the slack id; consume one
correction slot for the angle, and (for a PQ-typed bus) the following
slot for the relative voltage update. -/
def updStep (slackId : Nat) (dx : List ℚ) (st : UpdSt) (b : Bus) : UpdSt :=
  if b.bus_id = slackId then st
  else
    let dd := dx.getD st.next 0
    let delta1 := alModify b.bus_id (fun x => x + dd) st.delta
    let m1 := max st.maxMismatch |dd|
    if b.bus_type = BusType.PQ then
      let dv := dx.getD (st.next + 1) 0
      ⟨alModify b.bus_id (fun x => x * (1 + dv)) st.v, delta1,
        max m1 |dv|, st.next + 2⟩
    else ⟨st.v, delta1, m1, st.next + 1⟩

/-- The update walk over the buses in insertion order. -/
def applyUpdates (slackId : Nat) (buses : List Bus) (dx : List ℚ)
    (v delta : List (Nat × ℚ)) : UpdSt :=
  buses.foldl (updStep slackId dx) ⟨v, delta, 0, 0⟩

/-- Solution assembly on convergence (lines 473-480): voltages as-is,
angles converted to degrees (`* c`). -/
def outStep (c : ℚ) (v delta : List (Nat × ℚ))
    (p : List (Nat × ℚ) × List (Nat × ℚ)) (b : Bus) :
    List (Nat × ℚ) × List (Nat × ℚ) :=
  (alInsert b.bus_id (alGet b.bus_id v) p.1,
   alInsert b.bus_id (alGet b.bus_id delta * c) p.2)

def solutionOut (c : ℚ) (buses : List Bus) (v delta : List (Nat × ℚ)) :
    List (Nat × ℚ) × List (Nat × ℚ) :=
  buses.foldl (outStep c v delta) ([], [])

/-- The bounded iteration loop (lines 259-488), `fuel` counting the
remaining iterations out of `max_iterations = 100` and `itn` the
1-based iteration number used in the log. -/
def nrIter (c : ℚ) (cosF sinF : ℚ → ℚ) (buses : List Bus)
    (Y : List (List (ℚ × ℚ))) (pS qS : List (Nat × ℚ)) (slackId : Nat)
    (busIdx : List (Nat × Nat)) :
    Nat → Nat → List (Nat × ℚ) → List (Nat × ℚ) → List String → AcSolution
  | 0, _, _, _, log => ⟨[], [], log ++ [notConvergedMsg]⟩
  | fuel + 1, itn, v, delta, log =>
    let log1 := log ++ [iterStartMsg itn]
    let pC := calcP cosF sinF buses Y v delta
    let qC := calcQ cosF sinF buses Y v delta
    let dPQ := mismatchVec slackId buses pS qS pC qC busIdx
    let maps := idxMapsFold slackId buses
    let nns := maps.1.2
    let npq := maps.2.2
    let J := jacobianBlocks cosF sinF slackId buses busIdx maps.1.1 maps.2.1
      Y v delta pC qC
    let JM := jacobianMatrix nns npq J
    let log2 := log1 ++ [jacobianFormedMsg itn]
    match gaussSolve ((List.range (nns + npq)).map (fun r =>
        (List.range (nns + npq)).map (fun cc => JM r cc) ++ [dPQ.getD r 0])) with
    | none => ⟨[], [], log2 ++ [singularMsg]⟩
    | some dx =>
      let log3 := log2 ++ [correctionsMsg itn]
      let st := applyUpdates slackId buses dx v delta
      let log4 := log3 ++ [maxMismatchMsg itn st.maxMismatch]
      if st.maxMismatch < tolNR then
        let out := solutionOut c buses st.v st.delta
        ⟨out.1, out.2, log4 ++ [convergedMsg itn]⟩
      else
        nrIter c cosF sinF buses Y pS qS slackId busIdx fuel (itn + 1)
          st.v st.delta log4

/-- `Network::newton_raphson_solution` (`loadflow.rs`).  `none` models a
panic (an `unwrap()` of a missing map entry during scheduled-power or
Y-bus assembly); every non-panicking path returns `some` of the
source's `AcSolution`. -/
def newton_raphson_solution (c : ℚ) (cosF sinF : ℚ → ℚ) (net : Network) :
    Option AcSolution :=
  let log0 := [startMsg]
  if net.buses.length = 0 then some ⟨[], [], log0 ++ [noBusesMsg]⟩
  else
    match scanBuses net.buses none [] [] with
    | ScanOut.multiple => some ⟨[], [], log0 ++ [multipleSlackMsg]⟩
    | ScanOut.done none _ _ => some ⟨[], [], log0 ++ [noSlackMsg]⟩
    | ScanOut.done (some slackId) pv pq =>
      let log1 := log0 ++ [slackIdMsg slackId, pvListMsg pv, pqListMsg pq]
      let busIdx := mkBusIdxMap net.buses
      let s0 := schedInit net.buses
      match schedGens net.s_base net.generators (s0, s0) with
      | none => none
      | some m1 =>
        match schedLoads net.s_base net.loads m1 with
        | none => none
        | some m2 =>
          let vd := initVD c slackId net.buses
          match build_ybus_matrix net busIdx with
          | none => none
          | some Y =>
            let log2 := log1 ++ [ybusBuiltMsg]
            some (nrIter c cosF sinF net.buses Y m2.1 m2.2 slackId busIdx
              100 1 vd.1 vd.2 log2)

/-- Zero the two bus-level shunt fields (which no solver code reads). -/
def eraseBus (b : Bus) : Bus :=
  { b with real_shunt := 0, imag_shunt := 0 }

/-- A network up to its buses' shunt fields. -/
def eraseShunts (net : Network) : Network :=
  { net with buses := net.buses.map eraseBus }

/-! ## Association-list lemmas -/

theorem alLookup_alInsert_self {α : Type} (k : Nat) (v : α)
    (m : List (Nat × α)) : alLookup k (alInsert k v m) = some v := by
  induction m with
  | nil => simp [alInsert, alLookup]
  | cons p ps ih =>
    by_cases h : p.1 = k
    · simp [alInsert, alLookup, h]
    · simp [alInsert, alLookup, h, ih]

theorem alLookup_alInsert_ne {α : Type} {j k : Nat} (h : j ≠ k) (v : α)
    (m : List (Nat × α)) : alLookup j (alInsert k v m) = alLookup j m := by
  have hkj : ¬(k = j) := fun hh => h hh.symm
  induction m with
  | nil => simp [alInsert, alLookup, hkj]
  | cons p ps ih =>
    by_cases hp : p.1 = k
    · have hpj : ¬(p.1 = j) := by rw [hp]; exact hkj
      simp [alInsert, alLookup, hp, hkj, hpj]
    · simp [alInsert, alLookup, hp, ih]

theorem alLookup_alInsert_isSome {α : Type} {j : Nat} (k : Nat) (v : α)
    {m : List (Nat × α)} (h : (alLookup j m).isSome = true) :
    (alLookup j (alInsert k v m)).isSome = true := by
  by_cases hk : j = k
  · subst hk
    simp [alLookup_alInsert_self]
  · rwa [alLookup_alInsert_ne hk]

theorem alLookup_alModify_ne {α : Type} {j k : Nat} (h : j ≠ k)
    (f : α → α) (m : List (Nat × α)) :
    alLookup j (alModify k f m) = alLookup j m := by
  induction m with
  | nil => simp [alModify]
  | cons p ps ih =>
    by_cases hp : p.1 = k
    · have hkj : ¬(k = j) := fun hh => h hh.symm
      simp [alModify, alLookup, hp, hkj]
    · simp [alModify, alLookup, hp, ih]

theorem alInsert_ne_nil {α : Type} (k : Nat) (v : α) (m : List (Nat × α)) :
    alInsert k v m ≠ [] := by
  cases m with
  | nil => simp [alInsert]
  | cons p ps =>
    by_cases h : p.1 = k <;> simp [alInsert, h]

/-! ## Bus-scan lemmas -/

/-- Count of `Slack`-typed buses. -/
def countSlack (buses : List Bus) : Nat :=
  buses.countP (fun b => decide (b.bus_type = BusType.Slack))

theorem countSlack_nil : countSlack [] = 0 := rfl

theorem countSlack_cons (b : Bus) (bs : List Bus) :
    countSlack (b :: bs) =
      countSlack bs + (if b.bus_type = BusType.Slack then 1 else 0) := by
  by_cases h : b.bus_type = BusType.Slack <;>
    simp [countSlack, List.countP_cons, h]

theorem scanBuses_multiple_of_some (bs : List Bus) :
    ∀ (x : Nat) (pv pq : List Nat), 0 < countSlack bs →
      scanBuses bs (some x) pv pq = ScanOut.multiple := by
  induction bs with
  | nil => intro x pv pq h; simp [countSlack] at h
  | cons b bs ih =>
    intro x pv pq h
    rw [countSlack_cons] at h
    cases hb : b.bus_type with
    | Slack => simp [scanBuses, hb]
    | PV =>
      rw [hb] at h
      simp at h
      simpa [scanBuses, hb] using ih x (pv ++ [b.bus_id]) pq h
    | PQ =>
      rw [hb] at h
      simp at h
      simpa [scanBuses, hb] using ih x pv (pq ++ [b.bus_id]) h
    | OOS =>
      rw [hb] at h
      simp at h
      simpa [scanBuses, hb] using ih x pv pq h

theorem scanBuses_multiple_of_two (bs : List Bus) :
    ∀ (pv pq : List Nat), 2 ≤ countSlack bs →
      scanBuses bs none pv pq = ScanOut.multiple := by
  induction bs with
  | nil => intro pv pq h; simp [countSlack] at h
  | cons b bs ih =>
    intro pv pq h
    rw [countSlack_cons] at h
    cases hb : b.bus_type with
    | Slack =>
      rw [hb] at h
      simp at h
      have h1 : 0 < countSlack bs := by omega
      simpa [scanBuses, hb] using
        scanBuses_multiple_of_some bs b.bus_id pv pq h1
    | PV =>
      rw [hb] at h
      simp at h
      simpa [scanBuses, hb] using ih (pv ++ [b.bus_id]) pq h
    | PQ =>
      rw [hb] at h
      simp at h
      simpa [scanBuses, hb] using ih pv (pq ++ [b.bus_id]) h
    | OOS =>
      rw [hb] at h
      simp at h
      simpa [scanBuses, hb] using ih pv pq h

theorem scanBuses_done_of_none (bs : List Bus) :
    ∀ (s : Option Nat) (pv pq : List Nat), countSlack bs = 0 →
      ∃ pv' pq', scanBuses bs s pv pq = ScanOut.done s pv' pq' := by
  induction bs with
  | nil => intro s pv pq _; exact ⟨pv, pq, rfl⟩
  | cons b bs ih =>
    intro s pv pq h
    rw [countSlack_cons] at h
    cases hb : b.bus_type with
    | Slack => rw [hb] at h; simp at h
    | PV =>
      rw [hb] at h
      simp at h
      simpa [scanBuses, hb] using ih s (pv ++ [b.bus_id]) pq h
    | PQ =>
      rw [hb] at h
      simp at h
      simpa [scanBuses, hb] using ih s pv (pq ++ [b.bus_id]) h
    | OOS =>
      rw [hb] at h
      simp at h
      simpa [scanBuses, hb] using ih s pv pq h

/-! ## Claim C7 -/

/-- Claim C7: for every network with two or more `Slack` buses,
`newton_raphson_solution` returns an `AcSolution` with empty
`bus_voltages` and empty `bus_angles` whose log has an entry containing
"Multiple slack"; for every network with at least one bus and no
`Slack` bus, it returns an `AcSolution` with empty `bus_voltages` and
empty `bus_angles` whose log has an entry containing "No slack". -/
theorem c7_nr_slack_validation (c : ℚ) (cosF sinF : ℚ → ℚ) (net : Network) :
    (2 ≤ countSlack net.buses →
      ∃ l, newton_raphson_solution c cosF sinF net = some ⟨[], [], l⟩ ∧
        ∃ m ∈ l, ∃ pre post, m = pre ++ "Multiple slack" ++ post) ∧
    (net.buses ≠ [] → countSlack net.buses = 0 →
      ∃ l, newton_raphson_solution c cosF sinF net = some ⟨[], [], l⟩ ∧
        ∃ m ∈ l, ∃ pre post, m = pre ++ "No slack" ++ post) := by
  constructor
  · intro h2
    have hne : net.buses.length ≠ 0 := by
      intro h0
      rw [List.length_eq_zero] at h0
      rw [h0] at h2
      simp [countSlack] at h2
    refine ⟨[startMsg, multipleSlackMsg], ?_, multipleSlackMsg, by simp,
      "", " buses found, which is not allowed for Newton-Raphson.", by decide⟩
    rw [newton_raphson_solution]
    simp only [hne, if_false, scanBuses_multiple_of_two net.buses [] [] h2]
    rfl
  · intro hne h0
    have hlen : net.buses.length ≠ 0 := by
      intro hl
      exact hne (List.length_eq_zero.mp hl)
    obtain ⟨pv', pq', hscan⟩ := scanBuses_done_of_none net.buses none [] [] h0
    refine ⟨[startMsg, noSlackMsg], ?_, noSlackMsg, by simp,
      "", " bus found, which is required for Newton-Raphson.", by decide⟩
    rw [newton_raphson_solution]
    simp only [hlen, if_false, hscan]
    rfl

/-- Witness for C7 at two concrete networks: one with two slack buses,
one with a single PQ bus. -/
theorem c7_nr_slack_validation_witness :
    (∃ l, newton_raphson_solution 1 id id
        { s_base := 100
          buses := [⟨1, BusType.Slack, true, 1, 0, 0, 0⟩,
                    ⟨2, BusType.Slack, true, 1, 0, 0, 0⟩]
          branches := [], loads := [], generators := [], fixed_shunts := []
          bus_map := [] } = some ⟨[], [], l⟩ ∧
      ∃ m ∈ l, ∃ pre post, m = pre ++ "Multiple slack" ++ post) ∧
    (∃ l, newton_raphson_solution 1 id id
        { s_base := 100
          buses := [⟨1, BusType.PQ, true, 1, 0, 0, 0⟩]
          branches := [], loads := [], generators := [], fixed_shunts := []
          bus_map := [] } = some ⟨[], [], l⟩ ∧
      ∃ m ∈ l, ∃ pre post, m = pre ++ "No slack" ++ post) :=
  ⟨(c7_nr_slack_validation 1 id id _).1 (by decide),
   (c7_nr_slack_validation 1 id id _).2 (by decide) (by decide)⟩

/-! ## Concrete test networks -/

/-- A bus with the `Bus::new` defaults (`V = 1.0`, `angle = 0`, shunts
`0`, in service). -/
def mkBus (i : Nat) (t : BusType) : Bus := ⟨i, t, true, 1, 0, 0, 0⟩

/-- The spec's scenario S1: bus 1 `Slack`, bus 2 `PQ`, one in-service
branch 1→2 with `R = 0`, `X = 0.1`, a 50 MW load at bus 2, no
generation, `S_base = 100`. -/
def netS1 : Network :=
  { s_base := 100
    buses := [mkBus 1 BusType.Slack, mkBus 2 BusType.PQ]
    branches := [⟨1, 1, 2, true, 0, 1/10, 0, 0, 0, 0, 1, 0⟩]
    loads := [⟨2, 50, 0⟩]
    generators := []
    fixed_shunts := []
    bus_map := [] }

/-! ## Claim C1 -/

/-- Claim C1 (settled as a code bug): on scenario S1 the source does
not return `θ₂ = -0.05 rad` and `flow = +50 MW` as the claim states.
`dc_approximation` builds `B'` with `b = -1/X` on the DIAGONAL and
`+1/X` off-diagonal (the negation of the DC susceptance matrix), so it
returns the negated solution: `θ₂ = +0.05 rad` (reported `+0.05·c`
"degrees") and branch flow `-50 MW`.  Stated for every conversion
factor `c`; the flow value is conversion-free. -/
theorem c1_dc_s1_sign_flipped (c : ℚ) :
    dc_approximation c (rebuild_bus_map netS1) =
      some ⟨[(1, 0), (2, 1/20 * c)], [(1, -50)]⟩ := by
  simp [dc_approximation, dcSlackStep, dcAngleStep, dcFlowStep, dcSolve,
    dcInjections, bPrimeMat, bPrimeStep, gaussSolve, gaussAux, pickRow,
    reduceRow, backSub, rebuild_bus_map, busMapFold, alInsert, alLookup,
    setAdd, mkBus, netS1, List.range_succ, List.range_zero]
  norm_num

/-! ## Claim C2 -/

/-- Bus list for the update-slot claim: slack 1, then PQ buses 2, 3. -/
def busesC2 : List Bus :=
  [mkBus 1 BusType.Slack, mkBus 2 BusType.PQ, mkBus 3 BusType.PQ]

/-- Voltage state `V = 1` on each bus. -/
def vC2 : List (Nat × ℚ) := [(1, 1), (2, 1), (3, 1)]

/-- Angle state `δ = 0` on each bus. -/
def dC2 : List (Nat × ℚ) := [(1, 0), (2, 0), (3, 0)]

/-- Claim C2 (settled as a code bug): the mismatch vector and the
Jacobian are laid out in blocks (`ΔP` entries `[0, n_ns)`, then `ΔQ`
entries), so the solution `x` of `J·x = Δ` is block-ordered, but the
source's update walk consumes `x` SEQUENTIALLY, interleaving angle and
voltage slots.  For buses `[slack 1, PQ 2, PQ 3]` and
`x = [1, 2, 3, 4]`: `n_ns = 2`, bus 3's ΔP-block index is `1` and bus
2's ΔQ-block index is `0`, so the claim predicts `δ₃ += x[1] = 2` and
`V₂ *= 1 + x[2] = 4`; the walk instead applies `δ₂ += x[0] = 1`,
`V₂ *= 1 + x[1]` (giving `3`), `δ₃ += x[2] = 3`, `V₃ *= 1 + x[3]`
(giving `5`). -/
theorem c2_update_walk_interleaves :
    (idxMapsFold 1 busesC2).1.2 = 2 ∧
    alLookup 3 (idxMapsFold 1 busesC2).1.1 = some 1 ∧
    alLookup 2 (idxMapsFold 1 busesC2).2.1 = some 0 ∧
    (applyUpdates 1 busesC2 [1, 2, 3, 4] vC2 dC2).delta =
      [(1, 0), (2, 1), (3, 3)] ∧
    (applyUpdates 1 busesC2 [1, 2, 3, 4] vC2 dC2).v =
      [(1, 1), (2, 3), (3, 5)] := by
  refine ⟨by decide, by decide, by decide, ?_, ?_⟩ <;>
    (simp [applyUpdates, updStep, alModify, busesC2, vC2, dC2, mkBus] <;>
      norm_num)

/-! ## Claim C5 (counterexample) -/

/-- A network that passes slack validation but whose load references
the nonexistent bus id 2. -/
def netBadLoad : Network :=
  { s_base := 100
    buses := [mkBus 1 BusType.Slack]
    branches := []
    loads := [⟨2, 10, 0⟩]
    generators := []
    fixed_shunts := []
    bus_map := [] }

/-- Counterexample to claim C5: on `netBadLoad` the solver hits
`p_scheduled.get_mut(&load.bus_id).unwrap()` with no entry for bus 2
and panics (`none` in this model); it does not return an
`AcSolution`. -/
theorem c5_counterexample_unknown_load_panics :
    newton_raphson_solution 1 id id netBadLoad = none := by
  simp [newton_raphson_solution, scanBuses, schedInit, schedGens,
    schedGensGo, schedGenStep, schedLoads, schedLoadsGo, schedLoadStep,
    alInsert, alLookup, netBadLoad, mkBus]

/-! ## Claim C4 (counterexample) -/

/-- An in-service branch 1→2 with `X = 0`, `R = 0` and a from-side
shunt susceptance of `1`. -/
def netC4 : Network :=
  { s_base := 100
    buses := [mkBus 1 BusType.PQ, mkBus 2 BusType.PQ]
    branches := [⟨1, 1, 2, true, 0, 0, 0, 1, 0, 0, 1, 0⟩]
    loads := []
    generators := []
    fixed_shunts := []
    bus_map := [] }

/-- Counterexample to claim C4: the `X = 0, R = 0` branch of `netC4` is
NOT excluded from Y-bus assembly: its from-side shunt susceptance still
lands on the diagonal, `Y[0][0] = (0, 1) ≠ (0, 0)`. -/
theorem c4_counterexample_shunt_survives :
    ∃ Y, build_ybus_matrix netC4 (mkBusIdxMap netC4.buses) = some Y ∧
      yAt Y 0 0 ≠ (0, 0) := by
  refine ⟨[[(0, 1), (0, 0)], [(0, 0), (0, 0)]], ?_, by norm_num [yAt]⟩
  simp [build_ybus_matrix, ybusBranchStep, ybusShuntStep, cinv, setAddC,
    mkBusIdxMap, alInsert, alLookup, netC4, mkBus, List.range_succ,
    List.range_zero, List.enum]

/-! ## Claim C3 -/

/-- A network with one slack bus and one out-of-service bus. -/
def netC3 : Network :=
  { s_base := 100
    buses := [mkBus 1 BusType.Slack, mkBus 2 BusType.OOS]
    branches := []
    loads := []
    generators := []
    fixed_shunts := []
    bus_map := [] }

/-- Counterexample to claim C3: `rebuild_bus_map` excludes only
`Slack`-typed buses, so the OOS bus 2 of `netC3` DOES receive a matrix
index in `bus_map` (index 0). -/
theorem c3_counterexample_oos_gets_bus_map_index :
    alLookup 2 (rebuild_bus_map netC3).bus_map = some 0 := by decide

theorem busMapFold_isSome_mono (buses : List Bus) :
    ∀ (st : List (Nat × Nat) × Nat) (k : Nat),
      (alLookup k st.1).isSome = true →
      (alLookup k (busMapFold buses st).1).isSome = true := by
  induction buses with
  | nil => intro st k h; exact h
  | cons hd tl ih =>
    intro st k h
    rw [busMapFold, List.foldl_cons]
    by_cases hs : hd.bus_type = BusType.Slack
    · exact ih _ k (by simpa [hs] using h)
    · exact ih _ k (by simp [hs, alLookup_alInsert_isSome _ _ h])

theorem busMapFold_mem_isSome (buses : List Bus) :
    ∀ (st : List (Nat × Nat) × Nat) (b : Bus), b ∈ buses →
      b.bus_type ≠ BusType.Slack →
      (alLookup b.bus_id (busMapFold buses st).1).isSome = true := by
  induction buses with
  | nil => intro st b hb; cases hb
  | cons hd tl ih =>
    intro st b hb hns
    rw [busMapFold, List.foldl_cons]
    rcases List.mem_cons.mp hb with hb | hb
    · subst hb
      rw [if_neg hns]
      exact busMapFold_isSome_mono tl _ b.bus_id
        (by simp [alLookup_alInsert_self])
    · exact ih _ b hb hns

theorem idxStep_fold_ns_isSome_mono (s : Nat) (buses : List Bus) :
    ∀ (st : (List (Nat × Nat) × Nat) × (List (Nat × Nat) × Nat)) (k : Nat),
      (alLookup k st.1.1).isSome = true →
      (alLookup k (buses.foldl (idxStep s) st).1.1).isSome = true := by
  induction buses with
  | nil => intro st k h; exact h
  | cons hd tl ih =>
    intro st k h
    rw [List.foldl_cons]
    by_cases hs : hd.bus_id = s
    · exact ih _ k (by simpa [idxStep, hs] using h)
    · by_cases hq : hd.bus_type = BusType.PQ
      · exact ih _ k (by simp [idxStep, hs, hq, alLookup_alInsert_isSome _ _ h])
      · exact ih _ k (by simp [idxStep, hs, hq, alLookup_alInsert_isSome _ _ h])

theorem idxStep_fold_ns_mem_isSome (s : Nat) (buses : List Bus) :
    ∀ (st : (List (Nat × Nat) × Nat) × (List (Nat × Nat) × Nat)) (b : Bus),
      b ∈ buses → b.bus_id ≠ s →
      (alLookup b.bus_id (buses.foldl (idxStep s) st).1.1).isSome = true := by
  induction buses with
  | nil => intro st b hb; cases hb
  | cons hd tl ih =>
    intro st b hb hns
    rw [List.foldl_cons]
    rcases List.mem_cons.mp hb with hb | hb
    · subst hb
      have hstep : (alLookup b.bus_id (idxStep s st b).1.1).isSome = true := by
        rw [idxStep, if_neg hns]
        by_cases hq : b.bus_type = BusType.PQ
        · simp [hq, alLookup_alInsert_self]
        · simp [hq, alLookup_alInsert_self]
      exact idxStep_fold_ns_isSome_mono s tl _ b.bus_id hstep
    · exact ih _ b hb hns

theorem idxMapsFold_ns_mem_isSome (s : Nat) (buses : List Bus) (b : Bus)
    (hb : b ∈ buses) (hns : b.bus_id ≠ s) :
    (alLookup b.bus_id (idxMapsFold s buses).1.1).isSome = true :=
  idxStep_fold_ns_mem_isSome s buses _ b hb hns

theorem idxStep_fold_pq_not_mem (s : Nat) (k : Nat) (buses : List Bus)
    (hk : ∀ bb ∈ buses, bb.bus_id = k → bb.bus_id = s ∨ bb.bus_type ≠ BusType.PQ) :
    ∀ (st : (List (Nat × Nat) × Nat) × (List (Nat × Nat) × Nat)),
      alLookup k (buses.foldl (idxStep s) st).2.1 = alLookup k st.2.1 := by
  induction buses with
  | nil => intro st; rfl
  | cons hd tl ih =>
    intro st
    rw [List.foldl_cons]
    have htl : ∀ bb ∈ tl, bb.bus_id = k →
        bb.bus_id = s ∨ bb.bus_type ≠ BusType.PQ :=
      fun bb hbb => hk bb (List.mem_cons_of_mem hd hbb)
    rw [ih htl]
    by_cases hs : hd.bus_id = s
    · simp [idxStep, hs]
    · by_cases hq : hd.bus_type = BusType.PQ
      · have hne : hd.bus_id ≠ k := by
          intro hh
          rcases hk hd (List.mem_cons_self hd tl) hh with h1 | h1
          · exact hs h1
          · exact h1 hq
        simp [idxStep, hs, hq, alLookup_alInsert_ne (fun hh => hne hh.symm)]
      · simp [idxStep, hs, hq]

theorem idxMapsFold_pq_none (s : Nat) (k : Nat) (buses : List Bus)
    (hk : ∀ bb ∈ buses, bb.bus_id = k → bb.bus_id = s ∨ bb.bus_type ≠ BusType.PQ) :
    alLookup k (idxMapsFold s buses).2.1 = none := by
  rw [idxMapsFold, idxStep_fold_pq_not_mem s k buses hk]
  rfl

theorem updStep_fold_next (s : Nat) (dx : List ℚ) (buses : List Bus) :
    ∀ (st : UpdSt),
      (buses.foldl (updStep s dx) st).next =
        st.next + buses.countP (fun bb => decide (bb.bus_id ≠ s)) +
          buses.countP
            (fun bb => decide (bb.bus_id ≠ s ∧ bb.bus_type = BusType.PQ)) := by
  induction buses with
  | nil => intro st; simp
  | cons hd tl ih =>
    intro st
    rw [List.foldl_cons, ih, List.countP_cons, List.countP_cons]
    by_cases hs : hd.bus_id = s
    · simp [updStep, hs]
    · by_cases hq : hd.bus_type = BusType.PQ
      · simp [updStep, hs, hq]
        omega
      · simp [updStep, hs, hq]
        omega

theorem applyUpdates_next (s : Nat) (buses : List Bus) (dx : List ℚ)
    (v d : List (Nat × ℚ)) :
    (applyUpdates s buses dx v d).next =
      buses.countP (fun bb => decide (bb.bus_id ≠ s)) +
        buses.countP
          (fun bb => decide (bb.bus_id ≠ s ∧ bb.bus_type = BusType.PQ)) := by
  rw [applyUpdates, updStep_fold_next]
  simp

theorem mismatchVec_dP_length (s : Nat) (buses : List Bus)
    (pS : List (Nat × ℚ)) (pC : List ℚ) (busIdx : List (Nat × Nat)) :
    (buses.filterMap (fun b =>
        if b.bus_id = s then none
        else some (alGet b.bus_id pS -
          pC.getD ((alLookup b.bus_id busIdx).getD 0) 0))).length =
      buses.countP (fun bb => decide (bb.bus_id ≠ s)) := by
  induction buses with
  | nil => rfl
  | cons hd tl ih =>
    rw [List.filterMap_cons, List.countP_cons]
    by_cases hs : hd.bus_id = s
    · simpa [hs] using ih
    · simpa [hs] using ih

theorem mismatchVec_dQ_length (buses : List Bus)
    (qS : List (Nat × ℚ)) (qC : List ℚ) (busIdx : List (Nat × Nat)) :
    (buses.filterMap (fun b =>
        if b.bus_type = BusType.PQ then
          some (alGet b.bus_id qS -
            qC.getD ((alLookup b.bus_id busIdx).getD 0) 0)
        else none)).length =
      buses.countP (fun bb => decide (bb.bus_type = BusType.PQ)) := by
  induction buses with
  | nil => rfl
  | cons hd tl ih =>
    rw [List.filterMap_cons, List.countP_cons]
    by_cases hq : hd.bus_type = BusType.PQ
    · simpa [hq] using ih
    · simpa [hq] using ih

theorem mismatchVec_length (s : Nat) (buses : List Bus)
    (pS qS : List (Nat × ℚ)) (pC qC : List ℚ) (busIdx : List (Nat × Nat)) :
    (mismatchVec s buses pS qS pC qC busIdx).length =
      buses.countP (fun bb => decide (bb.bus_id ≠ s)) +
        buses.countP (fun bb => decide (bb.bus_type = BusType.PQ)) := by
  rw [mismatchVec]
  rw [List.length_append]
  rw [mismatchVec_dP_length s buses pS pC busIdx]
  rw [mismatchVec_dQ_length buses qS qC busIdx]

/-- A successful scan found its slack id on an actual `Slack` bus. -/
theorem scanBuses_done_some_mem (bs : List Bus) :
    ∀ (s0 : Option Nat) (pv pq : List Nat) (s : Nat) (pv' pq' : List Nat),
      scanBuses bs s0 pv pq = ScanOut.done (some s) pv' pq' →
      s0 = some s ∨ ∃ b ∈ bs, b.bus_type = BusType.Slack ∧ b.bus_id = s := by
  induction bs with
  | nil =>
    intro s0 pv pq s pv' pq' h
    rw [scanBuses] at h
    cases h
    exact Or.inl rfl
  | cons hd tl ih =>
    intro s0 pv pq s pv' pq' h
    cases hb : hd.bus_type with
    | Slack =>
      cases hs0 : s0 with
      | some x =>
        rw [hs0] at h
        simp [scanBuses, hb] at h
      | none =>
        rw [hs0] at h
        simp only [scanBuses, hb] at h
        rcases ih (some hd.bus_id) pv pq s pv' pq' h with h1 | h1
        · cases h1
          exact Or.inr ⟨hd, List.mem_cons_self hd tl, hb, rfl⟩
        · obtain ⟨b, hbm, hbs, hbe⟩ := h1
          exact Or.inr ⟨b, List.mem_cons_of_mem hd hbm, hbs, hbe⟩
    | PV =>
      simp only [scanBuses, hb] at h
      rcases ih s0 (pv ++ [hd.bus_id]) pq s pv' pq' h with h1 | h1
      · exact Or.inl h1
      · obtain ⟨b, hbm, hbs, hbe⟩ := h1
        exact Or.inr ⟨b, List.mem_cons_of_mem hd hbm, hbs, hbe⟩
    | PQ =>
      simp only [scanBuses, hb] at h
      rcases ih s0 pv (pq ++ [hd.bus_id]) s pv' pq' h with h1 | h1
      · exact Or.inl h1
      · obtain ⟨b, hbm, hbs, hbe⟩ := h1
        exact Or.inr ⟨b, List.mem_cons_of_mem hd hbm, hbs, hbe⟩
    | OOS =>
      simp only [scanBuses, hb] at h
      rcases ih s0 pv pq s pv' pq' h with h1 | h1
      · exact Or.inl h1
      · obtain ⟨b, hbm, hbs, hbe⟩ := h1
        exact Or.inr ⟨b, List.mem_cons_of_mem hd hbm, hbs, hbe⟩

/-- Claim C3 amended: an out-of-service bus is treated exactly like any
other non-slack bus by the index machinery.  It DOES receive an index
in `bus_map` and (when the slack scan succeeds, with unique bus ids) an
index in `non_slack_bus_to_idx` — hence a ΔP mismatch entry, a Jacobian
row/column and an angle-update slot — while it is absent from
`pq_bus_to_idx`, so it gets no ΔQ entry and no voltage update: the
mismatch vector has one ΔP entry per bus with non-slack id (OOS buses
included) plus one ΔQ entry per PQ-typed bus, and the update walk
consumes one slot per bus with non-slack id plus one more per such
PQ-typed bus. -/
theorem c3_amended_oos_is_indexed_nonslack (net : Network) (b : Bus)
    (hb : b ∈ net.buses) (ht : b.bus_type = BusType.OOS)
    (hnd : (net.buses.map (fun bb => bb.bus_id)).Nodup) :
    (alLookup b.bus_id (rebuild_bus_map net).bus_map).isSome = true ∧
    (∀ s pv pq, scanBuses net.buses none [] [] = ScanOut.done (some s) pv pq →
      b.bus_id ≠ s ∧
      (alLookup b.bus_id (idxMapsFold s net.buses).1.1).isSome = true ∧
      alLookup b.bus_id (idxMapsFold s net.buses).2.1 = none ∧
      (∀ pS qS pC qC busIdx,
        (mismatchVec s net.buses pS qS pC qC busIdx).length =
          net.buses.countP (fun bb => decide (bb.bus_id ≠ s)) +
            net.buses.countP (fun bb => decide (bb.bus_type = BusType.PQ))) ∧
      (∀ dx v d, (applyUpdates s net.buses dx v d).next =
          net.buses.countP (fun bb => decide (bb.bus_id ≠ s)) +
            net.buses.countP
              (fun bb => decide (bb.bus_id ≠ s ∧ bb.bus_type = BusType.PQ)))) := by
  have hinj := List.inj_on_of_nodup_map hnd
  constructor
  · rw [rebuild_bus_map]
    exact busMapFold_mem_isSome net.buses ([], 0) b hb (by simp [ht])
  · intro s pv pq hscan
    rcases scanBuses_done_some_mem net.buses none [] [] s pv pq hscan with h1 | h1
    · cases h1
    obtain ⟨bs, hbsm, hbst, hbse⟩ := h1
    have hbs_ne : b.bus_id ≠ s := by
      intro hh
      have : b = bs := hinj hb hbsm (by rw [hh, hbse])
      rw [this, hbst] at ht
      cases ht
    refine ⟨hbs_ne, idxMapsFold_ns_mem_isSome s net.buses b hb hbs_ne, ?_, ?_, ?_⟩
    · refine idxMapsFold_pq_none s b.bus_id net.buses ?_
      intro bb hbb hbbe
      have : bb = b := hinj hbb hb hbbe
      rw [this, ht]
      exact Or.inr (by intro hh; cases hh)
    · intro pS qS pC qC busIdx
      exact mismatchVec_length s net.buses pS qS pC qC busIdx
    · intro dx v d
      exact applyUpdates_next s net.buses dx v d

/-- Witness for C3's amended theorem at `netC3` (slack bus 1, OOS
bus 2): bus 2 has a `bus_map` index, a non-slack index, and no PQ
index. -/
theorem c3_amended_witness :
    (alLookup 2 (rebuild_bus_map netC3).bus_map).isSome = true ∧
    (alLookup 2 (idxMapsFold 1 netC3.buses).1.1).isSome = true ∧
    alLookup 2 (idxMapsFold 1 netC3.buses).2.1 = none := by
  have h := c3_amended_oos_is_indexed_nonslack netC3 (mkBus 2 BusType.OOS)
    (by decide) (by decide) (by decide)
  have h2 := h.2 1 [] [] (by decide)
  exact ⟨h.1, h2.2.1, h2.2.2.1⟩

/-! ## Claim C6 -/

theorem updStep_lookup_slack (s : Nat) (dx : List ℚ) (st : UpdSt) (hd : Bus) :
    alLookup s (updStep s dx st hd).v = alLookup s st.v ∧
    alLookup s (updStep s dx st hd).delta = alLookup s st.delta := by
  by_cases hs : hd.bus_id = s
  · simp [updStep, hs]
  · have hne : s ≠ hd.bus_id := fun hh => hs hh.symm
    by_cases hq : hd.bus_type = BusType.PQ
    · simp [updStep, hs, hq, alLookup_alModify_ne hne]
    · simp [updStep, hs, hq, alLookup_alModify_ne hne]

theorem updStep_fold_lookup_slack (s : Nat) (dx : List ℚ) (buses : List Bus) :
    ∀ st : UpdSt,
      alLookup s (buses.foldl (updStep s dx) st).v = alLookup s st.v ∧
      alLookup s (buses.foldl (updStep s dx) st).delta = alLookup s st.delta := by
  induction buses with
  | nil => intro st; exact ⟨rfl, rfl⟩
  | cons hd tl ih =>
    intro st
    rw [List.foldl_cons]
    refine ⟨?_, ?_⟩
    · rw [(ih (updStep s dx st hd)).1, (updStep_lookup_slack s dx st hd).1]
    · rw [(ih (updStep s dx st hd)).2, (updStep_lookup_slack s dx st hd).2]

theorem applyUpdates_lookup_slack (s : Nat) (buses : List Bus) (dx : List ℚ)
    (v d : List (Nat × ℚ)) :
    alLookup s (applyUpdates s buses dx v d).v = alLookup s v ∧
    alLookup s (applyUpdates s buses dx v d).delta = alLookup s d := by
  rw [applyUpdates]
  exact updStep_fold_lookup_slack s dx buses ⟨v, d, 0, 0⟩

theorem initStep_fold_lookup_slack (c : ℚ) (s : Nat) (buses : List Bus) :
    ∀ vd : List (Nat × ℚ) × List (Nat × ℚ),
      ((∃ b ∈ buses, b.bus_id = s) ∨
        (alLookup s vd.1 = some 1 ∧ alLookup s vd.2 = some 0)) →
      alLookup s (buses.foldl (initStep c s) vd).1 = some 1 ∧
      alLookup s (buses.foldl (initStep c s) vd).2 = some 0 := by
  induction buses with
  | nil =>
    intro vd h
    rcases h with ⟨b, hb, _⟩ | h
    · cases hb
    · exact h
  | cons hd tl ih =>
    intro vd h
    rw [List.foldl_cons]
    by_cases hs : hd.bus_id = s
    · refine ih _ (Or.inr ?_)
      rw [initStep, if_pos hs, hs]
      exact ⟨alLookup_alInsert_self s 1 vd.1, alLookup_alInsert_self s 0 vd.2⟩
    · have hne : s ≠ hd.bus_id := fun hh => hs hh.symm
      rcases h with ⟨b, hb, hbe⟩ | h
      · rcases List.mem_cons.mp hb with hb | hb
        · rw [hb] at hbe; exact absurd hbe hs
        · exact ih _ (Or.inl ⟨b, hb, hbe⟩)
      · refine ih _ (Or.inr ?_)
        rw [initStep, if_neg hs]
        exact ⟨by rw [alLookup_alInsert_ne hne _ vd.1]; exact h.1,
               by rw [alLookup_alInsert_ne hne _ vd.2]; exact h.2⟩

theorem initVD_lookup_slack (c : ℚ) (s : Nat) (buses : List Bus)
    (h : ∃ b ∈ buses, b.bus_id = s) :
    alLookup s (initVD c s buses).1 = some 1 ∧
    alLookup s (initVD c s buses).2 = some 0 := by
  rw [initVD]
  exact initStep_fold_lookup_slack c s buses ([], []) (Or.inl h)

theorem outStep_fold_lookup (c : ℚ) (v d : List (Nat × ℚ)) (s : Nat)
    (buses : List Bus) :
    ∀ p : List (Nat × ℚ) × List (Nat × ℚ),
      ((∃ b ∈ buses, b.bus_id = s) ∨
        (alLookup s p.1 = some (alGet s v) ∧
          alLookup s p.2 = some (alGet s d * c))) →
      alLookup s (buses.foldl (outStep c v d) p).1 = some (alGet s v) ∧
      alLookup s (buses.foldl (outStep c v d) p).2 = some (alGet s d * c) := by
  induction buses with
  | nil =>
    intro p h
    rcases h with ⟨b, hb, _⟩ | h
    · cases hb
    · exact h
  | cons hd tl ih =>
    intro p h
    rw [List.foldl_cons]
    by_cases hs : hd.bus_id = s
    · refine ih _ (Or.inr ?_)
      rw [outStep, hs]
      exact ⟨alLookup_alInsert_self s _ p.1, alLookup_alInsert_self s _ p.2⟩
    · have hne : s ≠ hd.bus_id := fun hh => hs hh.symm
      rcases h with ⟨b, hb, hbe⟩ | h
      · rcases List.mem_cons.mp hb with hb | hb
        · rw [hb] at hbe; exact absurd hbe hs
        · exact ih _ (Or.inl ⟨b, hb, hbe⟩)
      · refine ih _ (Or.inr ?_)
        rw [outStep]
        exact ⟨by rw [alLookup_alInsert_ne hne _ p.1]; exact h.1,
               by rw [alLookup_alInsert_ne hne _ p.2]; exact h.2⟩

theorem solutionOut_lookup_slack (c : ℚ) (buses : List Bus)
    (v d : List (Nat × ℚ)) (s : Nat) (h : ∃ b ∈ buses, b.bus_id = s) :
    alLookup s (solutionOut c buses v d).1 = some (alGet s v) ∧
    alLookup s (solutionOut c buses v d).2 = some (alGet s d * c) := by
  rw [solutionOut]
  exact outStep_fold_lookup c v d s buses ([], []) (Or.inl h)

theorem nrIter_slack_held (c : ℚ) (cosF sinF : ℚ → ℚ) (buses : List Bus)
    (Y : List (List (ℚ × ℚ))) (pS qS : List (Nat × ℚ)) (s : Nat)
    (busIdx : List (Nat × Nat)) (hmem : ∃ b ∈ buses, b.bus_id = s) :
    ∀ (fuel itn : Nat) (v d : List (Nat × ℚ)) (log : List String),
      alLookup s v = some 1 → alLookup s d = some 0 →
      (nrIter c cosF sinF buses Y pS qS s busIdx fuel itn v d log).bus_voltages
        ≠ [] →
      alLookup s (nrIter c cosF sinF buses Y pS qS s busIdx fuel itn v d
        log).bus_voltages = some 1 ∧
      alLookup s (nrIter c cosF sinF buses Y pS qS s busIdx fuel itn v d
        log).bus_angles = some 0 := by
  intro fuel
  induction fuel with
  | zero =>
    intro itn v d log hv hd hne
    rw [nrIter] at hne
    simp at hne
  | succ fuel ih =>
    intro itn v d log hv hd hne
    rw [nrIter] at hne ⊢
    set dPQ := mismatchVec s buses pS qS (calcP cosF sinF buses Y v d)
      (calcQ cosF sinF buses Y v d) busIdx with hdPQ
    set maps := idxMapsFold s buses with hmaps
    set J := jacobianBlocks cosF sinF s buses busIdx maps.1.1 maps.2.1 Y v d
      (calcP cosF sinF buses Y v d) (calcQ cosF sinF buses Y v d) with hJ
    cases hgs : gaussSolve ((List.range (maps.1.2 + maps.2.2)).map (fun r =>
        (List.range (maps.1.2 + maps.2.2)).map
          (fun cc => jacobianMatrix maps.1.2 maps.2.2 J r cc) ++
          [dPQ.getD r 0])) with
    | none =>
      rw [hgs] at hne
      simp at hne
    | some dx =>
      rw [hgs] at hne
      simp only at hne ⊢
      by_cases hcv :
          (applyUpdates s buses dx v d).maxMismatch < tolNR
      · rw [if_pos hcv] at hne ⊢
        have hst := applyUpdates_lookup_slack s buses dx v d
        have hout := solutionOut_lookup_slack c buses
          (applyUpdates s buses dx v d).v (applyUpdates s buses dx v d).delta
          s hmem
        simp only at hout ⊢
        rw [hout.1, hout.2]
        rw [alGet, hst.1, hv, alGet, hst.2, hd]
        simp
      · rw [if_neg hcv] at hne ⊢
        have hst := applyUpdates_lookup_slack s buses dx v d
        exact ih (itn + 1) _ _ _ (by rw [hst.1, hv]) (by rw [hst.2, hd]) hne

/-- Claim C6: inside the Newton-Raphson solver the slack bus is forced
to `V = 1`, `δ = 0` (the update walk never touches the slack entries,
for any state and any correction vector), and any converged
`AcSolution` (a returned solution with nonempty `bus_voltages`; all
failure paths return empty maps) lists the slack bus with voltage
exactly `1` and angle exactly `0` degrees. -/
theorem c6_nr_slack_held (c : ℚ) (cosF sinF : ℚ → ℚ) (net : Network)
    (s : Nat) (pv pq : List Nat)
    (hscan : scanBuses net.buses none [] [] = ScanOut.done (some s) pv pq) :
    (∀ (buses' : List Bus) (dx : List ℚ) (v d : List (Nat × ℚ)),
      alLookup s (applyUpdates s buses' dx v d).v = alLookup s v ∧
      alLookup s (applyUpdates s buses' dx v d).delta = alLookup s d) ∧
    (∀ sol, newton_raphson_solution c cosF sinF net = some sol →
      sol.bus_voltages ≠ [] →
      alLookup s sol.bus_voltages = some 1 ∧
      alLookup s sol.bus_angles = some 0) := by
  refine ⟨fun buses' dx v d => applyUpdates_lookup_slack s buses' dx v d, ?_⟩
  intro sol hsol hne
  have hmem : ∃ b ∈ net.buses, b.bus_id = s := by
    rcases scanBuses_done_some_mem net.buses none [] [] s pv pq hscan with h | h
    · cases h
    · obtain ⟨b, hb, _, hbe⟩ := h
      exact ⟨b, hb, hbe⟩
  have hlen : ¬(net.buses.length = 0) := by
    intro h0
    rw [List.length_eq_zero] at h0
    rw [h0] at hscan
    simp [scanBuses] at hscan
  rw [newton_raphson_solution, if_neg hlen, hscan] at hsol
  simp only at hsol
  cases hg : schedGens net.s_base net.generators
      (schedInit net.buses, schedInit net.buses) with
  | none => rw [hg] at hsol; simp at hsol
  | some m1 =>
    rw [hg] at hsol
    simp only at hsol
    cases hl : schedLoads net.s_base net.loads m1 with
    | none => rw [hl] at hsol; simp at hsol
    | some m2 =>
      rw [hl] at hsol
      simp only at hsol
      cases hy : build_ybus_matrix net (mkBusIdxMap net.buses) with
      | none => rw [hy] at hsol; simp at hsol
      | some Y =>
        rw [hy] at hsol
        simp only [Option.some_inj] at hsol
        have hinit := initVD_lookup_slack c s net.buses hmem
        have := nrIter_slack_held c cosF sinF net.buses Y m2.1 m2.2 s
          (mkBusIdxMap net.buses) hmem 100 1
          (initVD c s net.buses).1 (initVD c s net.buses).2
          ([startMsg] ++ [slackIdMsg s, pvListMsg pv, pqListMsg pq] ++
            [ybusBuiltMsg])
          hinit.1 hinit.2
        rw [hsol] at this
        exact this hne

/-- Witness for C6 at a single-slack-bus network, where NR converges in
one iteration. -/
theorem c6_nr_slack_held_witness :
    ∃ sol, newton_raphson_solution 1 id id
        { s_base := 100
          buses := [mkBus 1 BusType.Slack]
          branches := [], loads := [], generators := [], fixed_shunts := []
          bus_map := [] } = some sol ∧
      sol.bus_voltages ≠ [] ∧
      alLookup 1 sol.bus_voltages = some 1 ∧
      alLookup 1 sol.bus_angles = some 0 := by
  have hsol : newton_raphson_solution 1 id id
      { s_base := 100
        buses := [mkBus 1 BusType.Slack]
        branches := [], loads := [], generators := [], fixed_shunts := []
        bus_map := [] } =
      some ⟨[(1, 1)], [(1, 0)],
        [startMsg, slackIdMsg 1, pvListMsg [], pqListMsg [], ybusBuiltMsg,
         iterStartMsg 1, jacobianFormedMsg 1, correctionsMsg 1,
         maxMismatchMsg 1 0, convergedMsg 1]⟩ := by
    simp [newton_raphson_solution, scanBuses, schedInit, schedGens,
      schedGensGo, schedGenStep, schedLoads, schedLoadsGo, schedLoadStep,
      initVD, initStep, build_ybus_matrix, mkBusIdxMap,
      nrIter, calcP, calcQ, mismatchVec, idxMapsFold, idxStep,
      jacobianBlocks, jacobianMatrix, gaussSolve, gaussAux,
      applyUpdates, updStep, solutionOut, outStep, alInsert, alLookup,
      alGet, yAt, tolNR, mkBus, List.range_zero, List.enum]
  refine ⟨_, hsol, by simp, ?_⟩
  have h := (c6_nr_slack_held 1 id id _ 1 [] [] (by decide)).2 _ hsol (by simp)
  exact h

/-! ## Claim C5 (amended theorem) -/

theorem schedInit_absent (buses : List Bus) (k : Nat)
    (h : ∀ b ∈ buses, b.bus_id ≠ k) :
    alLookup k (schedInit buses) = none := by
  rw [schedInit]
  have hgen : ∀ (m : List (Nat × ℚ)), alLookup k m = none →
      alLookup k (buses.foldl (fun m b => alInsert b.bus_id (0 : ℚ) m) m)
        = none := by
    induction buses with
    | nil => intro m hm; exact hm
    | cons hd tl ih =>
      intro m hm
      rw [List.foldl_cons]
      refine ih (fun b hb => h b (List.mem_cons_of_mem hd hb)) _ ?_
      rw [alLookup_alInsert_ne
        (fun hh => h hd (List.mem_cons_self hd tl) hh.symm) _ m]
      exact hm
  exact hgen [] rfl

theorem schedGensGo_none (sBase : ℚ) (gens : List Generator) :
    schedGensGo sBase gens none = none := by
  induction gens with
  | nil => rfl
  | cons g gs ih => simpa [schedGensGo] using ih

theorem schedLoadsGo_none (sBase : ℚ) (loads : List Load) :
    schedLoadsGo sBase loads none = none := by
  induction loads with
  | nil => rfl
  | cons l ls ih => simpa [schedLoadsGo] using ih

theorem schedGens_preserves_absent (sBase : ℚ) (gens : List Generator) :
    ∀ (m0 m' : List (Nat × ℚ) × List (Nat × ℚ)) (k : Nat),
      schedGens sBase gens m0 = some m' →
      alLookup k m0.1 = none → alLookup k m'.1 = none := by
  induction gens with
  | nil =>
    intro m0 m' k h habs
    rw [schedGens, schedGensGo] at h
    cases h
    exact habs
  | cons g gs ih =>
    intro m0 m' k h habs
    rw [schedGens, schedGensGo, List.foldl_cons] at h
    simp only [Option.some_bind] at h
    cases hstep : schedGenStep sBase m0 g with
    | none =>
      rw [hstep] at h
      rw [show (gs.foldl (fun o g => o.bind
          (fun m => schedGenStep sBase m g)) none) = none from
        schedGensGo_none sBase gs] at h
      cases h
    | some m1 =>
      rw [hstep] at h
      have habs1 : alLookup k m1.1 = none := by
        rw [schedGenStep] at hstep
        by_cases hst : g.gen_status = true
        · rw [if_pos hst] at hstep
          cases hp : alLookup g.gen_bus_id m0.1 with
          | none => rw [hp] at hstep; cases hstep
          | some p0 =>
            cases hq : alLookup g.gen_bus_id m0.2 with
            | none => rw [hp, hq] at hstep; cases hstep
            | some q0 =>
              rw [hp, hq] at hstep
              cases hstep
              have hne : k ≠ g.gen_bus_id := by
                intro hh
                rw [hh] at habs
                rw [habs] at hp
                cases hp
              simp only
              rw [alLookup_alInsert_ne hne _ m0.1]
              exact habs
        · rw [if_neg hst] at hstep
          cases hstep
          exact habs
      exact ih m1 m' k h habs1

theorem schedLoads_missing (sBase : ℚ) (loads : List Load) :
    ∀ (m0 : List (Nat × ℚ) × List (Nat × ℚ)) (k : Nat),
      alLookup k m0.1 = none → (∃ l ∈ loads, l.bus_id = k) →
      schedLoads sBase loads m0 = none := by
  induction loads with
  | nil =>
    intro m0 k _ hmem
    obtain ⟨l, hl, _⟩ := hmem
    cases hl
  | cons l ls ih =>
    intro m0 k habs hmem
    rw [schedLoads, schedLoadsGo, List.foldl_cons]
    simp only [Option.some_bind]
    by_cases hlk : l.bus_id = k
    · have hstep : schedLoadStep sBase m0 l = none := by
        simp [schedLoadStep, hlk, habs]
      rw [hstep]
      exact schedLoadsGo_none sBase ls
    · cases hstep : schedLoadStep sBase m0 l with
      | none => exact schedLoadsGo_none sBase ls
      | some m1 =>
        have habs1 : alLookup k m1.1 = none := by
          rw [schedLoadStep] at hstep
          cases hp : alLookup l.bus_id m0.1 with
          | none => rw [hp] at hstep; cases hstep
          | some p0 =>
            cases hq : alLookup l.bus_id m0.2 with
            | none => rw [hp, hq] at hstep; cases hstep
            | some q0 =>
              rw [hp, hq] at hstep
              cases hstep
              simp only
              rw [alLookup_alInsert_ne (fun hh => hlk hh.symm) _ m0.1]
              exact habs
        have hmem1 : ∃ l' ∈ ls, l'.bus_id = k := by
          obtain ⟨l', hl', hle⟩ := hmem
          rcases List.mem_cons.mp hl' with h1 | h1
          · rw [h1] at hle; exact absurd hle hlk
          · exact ⟨l', h1, hle⟩
        show schedLoadsGo sBase ls (some m1) = none
        exact ih m1 k habs1 hmem1

/-- Claim C5 amended: slack-validation failures are surfaced as a
returned `AcSolution`, but a load whose `bus_id` matches no bus makes
`newton_raphson_solution` panic (here: return `none`) on the
`p_scheduled.get_mut(&load.bus_id).unwrap()` once the slack scan has
succeeded — the failure is NOT surfaced as a caller-visible
`AcSolution`.  (An in-service generator or branch with an unknown bus
id panics the same way, at its own `unwrap`.) -/
theorem c5_amended_unknown_load_panics (c : ℚ) (cosF sinF : ℚ → ℚ)
    (net : Network) (s : Nat) (pv pq : List Nat)
    (hscan : scanBuses net.buses none [] [] = ScanOut.done (some s) pv pq)
    (hload : ∃ l ∈ net.loads, ∀ b ∈ net.buses, b.bus_id ≠ l.bus_id) :
    newton_raphson_solution c cosF sinF net = none := by
  obtain ⟨l, hl, hbad⟩ := hload
  have hlen : ¬(net.buses.length = 0) := by
    intro h0
    rw [List.length_eq_zero] at h0
    rw [h0] at hscan
    simp [scanBuses] at hscan
  rw [newton_raphson_solution, if_neg hlen, hscan]
  simp only
  have habs : alLookup l.bus_id (schedInit net.buses) = none :=
    schedInit_absent net.buses l.bus_id hbad
  cases hg : schedGens net.s_base net.generators
      (schedInit net.buses, schedInit net.buses) with
  | none => rfl
  | some m1 =>
    have habs1 : alLookup l.bus_id m1.1 = none :=
      schedGens_preserves_absent net.s_base net.generators _ m1 l.bus_id
        hg habs
    simp only
    rw [schedLoads_missing net.s_base net.loads m1 l.bus_id habs1
      ⟨l, hl, rfl⟩]

/-- Witness for C5's amended theorem: a slack-only network with a load
at the nonexistent bus 7. -/
theorem c5_amended_witness :
    newton_raphson_solution 1 id id
      { s_base := 100
        buses := [mkBus 1 BusType.Slack]
        branches := []
        loads := [⟨7, 5, 2⟩]
        generators := [], fixed_shunts := []
        bus_map := [] } = none :=
  c5_amended_unknown_load_panics 1 id id _ 1 [] [] (by decide)
    ⟨⟨7, 5, 2⟩, by decide, by decide⟩

/-! ## Claim C4 (amended theorem) -/

/-- Claim C4 amended: for an in-service branch with `X = 0` and
`R = 0`, the series admittance is taken as zero, so the branch
contributes nothing to `B'` (its `bPrimeStep` is the identity) and
nothing to any off-diagonal Y-bus entry nor to the real part of any
diagonal entry; only its from/to shunt susceptances still land on the
imaginary parts of the two diagonal entries (its shunt conductance
fields are never read). -/
theorem c4_amended_zero_impedance_branch (bm : List (Nat × Nat))
    (MB : Nat → Nat → ℚ) (busIdxMap : List (Nat × Nat))
    (M : Nat → Nat → ℚ × ℚ) (br : Branch)
    (hr : br.resistance = 0) (hx : br.reactance = 0) :
    bPrimeStep bm MB br = MB ∧
    (∀ M', ybusBranchStep busIdxMap M br = some M' →
      (∀ i j, i ≠ j → M' i j = M i j) ∧ (∀ i, (M' i i).1 = (M i i).1)) := by
  constructor
  · rw [bPrimeStep, if_pos (Or.inr hx)]
  · intro M' hM'
    rw [ybusBranchStep] at hM'
    by_cases hst : br.branch_status = false
    · rw [if_pos hst] at hM'
      obtain rfl : M = M' := Option.some.inj hM'
      exact ⟨fun i j _ => rfl, fun i => rfl⟩
    · rw [if_neg hst] at hM'
      cases hf : alLookup br.from_bus busIdxMap with
      | none => rw [hf] at hM'; simp at hM'
      | some fi =>
        cases ht : alLookup br.to_bus busIdxMap with
        | none => rw [hf, ht] at hM'; simp at hM'
        | some ti =>
          rw [hf, ht] at hM'
          simp only [hr, hx] at hM'
          have hy : cinv ((0 : ℚ), (0 : ℚ)) = (0, 0) := by simp [cinv]
          rw [hy] at hM'
          obtain rfl : _ = M' := Option.some.inj hM'
          constructor
          · intro i j hij
            simp only [setAddC]
            split_ifs <;>
              first
                | (exfalso; omega)
                | simp [Prod.ext_iff]
          · intro i
            simp only [setAddC]
            split_ifs <;> simp [Prod.ext_iff]

/-- The `X = 0, R = 0` branch of `netC4`, standalone. -/
def brC4 : Branch := ⟨1, 1, 2, true, 0, 0, 0, 1, 0, 0, 1, 0⟩

/-- The all-zero complex matrix. -/
def zMatC : Nat → Nat → ℚ × ℚ := fun _ _ => (0, 0)

/-- The all-zero real matrix. -/
def zMatR : Nat → Nat → ℚ := fun _ _ => 0

/-- Witness for C4's amended theorem at the concrete branch `brC4`. -/
theorem c4_amended_witness :
    bPrimeStep [] zMatR brC4 = zMatR ∧
    ∃ M', ybusBranchStep [(1, 0), (2, 1)] zMatC brC4 = some M' ∧
      M' 0 1 = zMatC 0 1 ∧ (M' 0 0).1 = (zMatC 0 0).1 := by
  have h := c4_amended_zero_impedance_branch [] zMatR [(1, 0), (2, 1)]
    zMatC brC4 rfl rfl
  refine ⟨h.1, ?_⟩
  obtain ⟨M', hM'⟩ : ∃ M',
      ybusBranchStep [(1, 0), (2, 1)] zMatC brC4 = some M' := ⟨_, rfl⟩
  obtain ⟨hoff, hdiag⟩ := h.2 M' hM'
  exact ⟨M', hM', hoff 0 1 (by decide), hdiag 0⟩

/-! ## Claim C9 -/

theorem setAdd_eval (M : Nat → Nat → ℚ) (i j : Nat) (v : ℚ) (r c : Nat) :
    setAdd M i j v r c = M r c + (if r = i ∧ c = j then v else 0) := by
  rw [setAdd]
  split_ifs <;> ring

theorem setAddC_eval (M : Nat → Nat → ℚ × ℚ) (i j : Nat) (v : ℚ × ℚ)
    (r c : Nat) :
    setAddC M i j v r c = M r c + (if r = i ∧ c = j then v else 0) := by
  rw [setAddC]
  split_ifs <;> ring

theorem setAdd4_symm (M : Nat → Nat → ℚ) (a b : Nat) (v w : ℚ)
    (hM : ∀ i j, M i j = M j i) (i j : Nat) :
    setAdd (setAdd (setAdd (setAdd M a a v) b b v) a b w) b a w i j =
      setAdd (setAdd (setAdd (setAdd M a a v) b b v) a b w) b a w j i := by
  rw [setAdd_eval, setAdd_eval, setAdd_eval, setAdd_eval,
      setAdd_eval, setAdd_eval, setAdd_eval, setAdd_eval, hM i j]
  by_cases h1 : i = a <;> by_cases h2 : i = b <;>
    by_cases h3 : j = a <;> by_cases h4 : j = b <;>
    simp [h1, h2, h3, h4, eq_comm, and_comm] <;> ring

theorem setAdd_diag_symm (M : Nat → Nat → ℚ) (k : Nat) (v : ℚ)
    (hM : ∀ i j, M i j = M j i) (i j : Nat) :
    setAdd M k k v i j = setAdd M k k v j i := by
  rw [setAdd_eval, setAdd_eval, hM i j]
  by_cases h1 : i = k <;> by_cases h2 : j = k <;>
    simp [h1, h2, eq_comm, and_comm]

theorem setAddC4_symm (M : Nat → Nat → ℚ × ℚ) (a b : Nat)
    (v1 v2 w : ℚ × ℚ) (hM : ∀ i j, M i j = M j i) (i j : Nat) :
    setAddC (setAddC (setAddC (setAddC M a a v1) b b v2) a b w) b a w i j =
      setAddC (setAddC (setAddC (setAddC M a a v1) b b v2) a b w) b a w j i := by
  rw [setAddC_eval, setAddC_eval, setAddC_eval, setAddC_eval,
      setAddC_eval, setAddC_eval, setAddC_eval, setAddC_eval, hM i j]
  by_cases h1 : i = a <;> by_cases h2 : i = b <;>
    by_cases h3 : j = a <;> by_cases h4 : j = b <;>
    simp [h1, h2, h3, h4, eq_comm, and_comm] <;> ring

theorem setAddC_diag_symm (M : Nat → Nat → ℚ × ℚ) (k : Nat) (v : ℚ × ℚ)
    (hM : ∀ i j, M i j = M j i) (i j : Nat) :
    setAddC M k k v i j = setAddC M k k v j i := by
  rw [setAddC_eval, setAddC_eval, hM i j]
  by_cases h1 : i = k <;> by_cases h2 : j = k <;>
    simp [h1, h2, eq_comm, and_comm]

theorem bPrimeStep_symm (bm : List (Nat × Nat)) (M : Nat → Nat → ℚ)
    (br : Branch) (hM : ∀ i j, M i j = M j i) :
    ∀ i j, bPrimeStep bm M br i j = bPrimeStep bm M br j i := by
  intro i j
  rw [bPrimeStep]
  by_cases hc : br.branch_status = false ∨ br.reactance = 0
  · rw [if_pos hc]; exact hM i j
  · rw [if_neg hc]
    cases hf : alLookup br.from_bus bm with
    | none =>
      cases ht : alLookup br.to_bus bm with
      | none => exact hM i j
      | some tj => exact setAdd_diag_symm M tj _ hM i j
    | some fi =>
      cases ht : alLookup br.to_bus bm with
      | none => exact setAdd_diag_symm M fi _ hM i j
      | some tj => exact setAdd4_symm M fi tj _ _ hM i j

theorem bPrimeFold_symm (bm : List (Nat × Nat)) (brs : List Branch) :
    ∀ (M : Nat → Nat → ℚ), (∀ i j, M i j = M j i) →
      ∀ i j, (brs.foldl (bPrimeStep bm) M) i j =
        (brs.foldl (bPrimeStep bm) M) j i := by
  induction brs with
  | nil => intro M hM i j; exact hM i j
  | cons hd tl ih =>
    intro M hM i j
    rw [List.foldl_cons]
    exact ih _ (bPrimeStep_symm bm M hd hM) i j

/-- B' is symmetric for every network. -/
theorem bPrimeMat_symm (net : Network) :
    ∀ i j, bPrimeMat net i j = bPrimeMat net j i := by
  rw [bPrimeMat]
  exact bPrimeFold_symm net.bus_map net.branches _ (fun _ _ => rfl)

theorem ybusBranchStep_symm (m : List (Nat × Nat)) (M : Nat → Nat → ℚ × ℚ)
    (br : Branch) (M' : Nat → Nat → ℚ × ℚ)
    (h : ybusBranchStep m M br = some M') (hM : ∀ i j, M i j = M j i) :
    ∀ i j, M' i j = M' j i := by
  rw [ybusBranchStep] at h
  by_cases hst : br.branch_status = false
  · rw [if_pos hst] at h
    obtain rfl : M = M' := Option.some.inj h
    exact hM
  · rw [if_neg hst] at h
    cases hf : alLookup br.from_bus m with
    | none => rw [hf] at h; simp at h
    | some fi =>
      cases ht : alLookup br.to_bus m with
      | none => rw [hf, ht] at h; simp at h
      | some ti =>
        rw [hf, ht] at h
        simp only at h
        obtain rfl : _ = M' := Option.some.inj h
        exact setAddC4_symm M fi ti _ _ _ hM

theorem ybusShuntStep_symm (sBase : ℚ) (m : List (Nat × Nat))
    (M : Nat → Nat → ℚ × ℚ) (sh : FixedShunt) (M' : Nat → Nat → ℚ × ℚ)
    (h : ybusShuntStep sBase m M sh = some M')
    (hM : ∀ i j, M i j = M j i) : ∀ i j, M' i j = M' j i := by
  rw [ybusShuntStep] at h
  by_cases hst : sh.status = false
  · rw [if_pos hst] at h
    obtain rfl : M = M' := Option.some.inj h
    exact hM
  · rw [if_neg hst] at h
    cases hk : alLookup sh.bus_id m with
    | none => rw [hk] at h; simp at h
    | some k =>
      rw [hk] at h
      simp only at h
      obtain rfl : _ = M' := Option.some.inj h
      exact setAddC_diag_symm M k _ hM

theorem ybusBranchFold_none (m : List (Nat × Nat)) (brs : List Branch) :
    brs.foldl (fun om br => om.bind (fun M => ybusBranchStep m M br)) none
      = none := by
  induction brs with
  | nil => rfl
  | cons hd tl ih => simpa using ih

theorem ybusShuntFold_none (sBase : ℚ) (m : List (Nat × Nat))
    (shs : List FixedShunt) :
    shs.foldl (fun om sh => om.bind (fun M => ybusShuntStep sBase m M sh))
      none = none := by
  induction shs with
  | nil => rfl
  | cons hd tl ih => simpa using ih

theorem ybusBranchFold_symm (m : List (Nat × Nat)) (brs : List Branch) :
    ∀ (M M' : Nat → Nat → ℚ × ℚ), (∀ i j, M i j = M j i) →
      brs.foldl (fun om br => om.bind (fun M => ybusBranchStep m M br))
        (some M) = some M' →
      ∀ i j, M' i j = M' j i := by
  induction brs with
  | nil =>
    intro M M' hM h
    obtain rfl : M = M' := Option.some.inj h
    exact hM
  | cons hd tl ih =>
    intro M M' hM h
    rw [List.foldl_cons] at h
    simp only [Option.some_bind] at h
    cases hstep : ybusBranchStep m M hd with
    | none =>
      rw [hstep, ybusBranchFold_none m tl] at h
      cases h
    | some M1 =>
      rw [hstep] at h
      exact ih M1 M' (ybusBranchStep_symm m M hd M1 hstep hM) h

theorem ybusShuntFold_symm (sBase : ℚ) (m : List (Nat × Nat))
    (shs : List FixedShunt) :
    ∀ (M M' : Nat → Nat → ℚ × ℚ), (∀ i j, M i j = M j i) →
      shs.foldl (fun om sh => om.bind (fun M => ybusShuntStep sBase m M sh))
        (some M) = some M' →
      ∀ i j, M' i j = M' j i := by
  induction shs with
  | nil =>
    intro M M' hM h
    obtain rfl : M = M' := Option.some.inj h
    exact hM
  | cons hd tl ih =>
    intro M M' hM h
    rw [List.foldl_cons] at h
    simp only [Option.some_bind] at h
    cases hstep : ybusShuntStep sBase m M hd with
    | none =>
      rw [hstep, ybusShuntFold_none sBase m tl] at h
      cases h
    | some M1 =>
      rw [hstep] at h
      exact ih M1 M' (ybusShuntStep_symm sBase m M hd M1 hstep hM) h

theorem denseRows_symm (n : Nat) (M2 : Nat → Nat → ℚ × ℚ)
    (hs : ∀ i j, M2 i j = M2 j i) (i j : Nat) :
    (((List.range n).map (fun r =>
        (List.range n).map (fun c => M2 r c))).getD i []).getD j (0, 0) =
    (((List.range n).map (fun r =>
        (List.range n).map (fun c => M2 r c))).getD j []).getD i (0, 0) := by
  have hrow : ∀ r : Nat,
      ((List.range n).map (fun r =>
        (List.range n).map (fun c => M2 r c))).getD r [] =
        if r < n then (List.range n).map (fun c => M2 r c) else [] := by
    intro r
    rw [List.getD_eq_getElem?_getD, List.getElem?_map]
    by_cases hr : r < n
    · rw [List.getElem?_range hr, if_pos hr]
      rfl
    · rw [List.getElem?_eq_none (by simpa using Nat.le_of_not_lt hr),
        if_neg hr]
      rfl
  have hcell : ∀ (r c : Nat), r < n →
      ((List.range n).map (fun cc => M2 r cc)).getD c (0, 0) =
        if c < n then M2 r c else (0, 0) := by
    intro r c _
    rw [List.getD_eq_getElem?_getD, List.getElem?_map]
    by_cases hc : c < n
    · rw [List.getElem?_range hc, if_pos hc]
      rfl
    · rw [List.getElem?_eq_none (by simpa using Nat.le_of_not_lt hc),
        if_neg hc]
      rfl
  rw [hrow i, hrow j]
  by_cases hi : i < n <;> by_cases hj : j < n
  · rw [if_pos hi, if_pos hj, hcell i j hi, hcell j i hj,
      if_pos hj, if_pos hi, hs i j]
  · rw [if_pos hi, if_neg hj, hcell i j hi, if_neg hj]
    rfl
  · rw [if_neg hi, if_pos hj, hcell j i hj, if_neg hi]
    rfl
  · rw [if_neg hi, if_neg hj]
    rfl

/-- Claim C9: the assembled `B'` matrix is symmetric for every network,
and so is every assembled Y-bus matrix (the source never applies a
branch phase shift, so no asymmetry can arise): entry `(i, j)` equals
entry `(j, i)` for all indices. -/
theorem c9_bprime_and_ybus_symmetric (net : Network)
    (busIdxMap : List (Nat × Nat)) :
    (∀ i j, bPrimeMat net i j = bPrimeMat net j i) ∧
    (∀ Y, build_ybus_matrix net busIdxMap = some Y →
      ∀ i j, (Y.getD i []).getD j (0, 0) = (Y.getD j []).getD i (0, 0)) := by
  refine ⟨bPrimeMat_symm net, ?_⟩
  intro Y hY i j
  rw [build_ybus_matrix] at hY
  cases hb : net.branches.foldl
      (fun om br => om.bind (fun M => ybusBranchStep busIdxMap M br))
      (some (fun _ _ => (0, 0)) : Option (Nat → Nat → ℚ × ℚ)) with
  | none => rw [hb] at hY; cases hY
  | some M1 =>
    rw [hb] at hY
    simp only at hY
    cases hsh : net.fixed_shunts.foldl
        (fun om sh => om.bind (fun M => ybusShuntStep net.s_base busIdxMap M sh))
        (some M1) with
    | none => rw [hsh] at hY; cases hY
    | some M2 =>
      rw [hsh] at hY
      simp only [Option.some_inj] at hY
      have hM1 : ∀ i j, M1 i j = M1 j i :=
        ybusBranchFold_symm busIdxMap net.branches (fun _ _ => (0, 0)) M1
          (fun _ _ => rfl) hb
      have hM2 : ∀ i j, M2 i j = M2 j i :=
        ybusShuntFold_symm net.s_base busIdxMap net.fixed_shunts M1 M2 hM1 hsh
      rw [← hY]
      exact denseRows_symm net.buses.length M2 hM2 i j

/-- Witness for C9's Y-bus part at a two-bus network with one
`R = 1, X = 1` branch. -/
theorem c9_witness :
    ∃ Y, build_ybus_matrix
        { s_base := 100
          buses := [mkBus 1 BusType.PQ, mkBus 2 BusType.PQ]
          branches := [⟨1, 1, 2, true, 1, 1, 0, 0, 0, 0, 1, 0⟩]
          loads := [], generators := [], fixed_shunts := []
          bus_map := [] } [(1, 0), (2, 1)] = some Y ∧
      (Y.getD 0 []).getD 1 (0, 0) = (Y.getD 1 []).getD 0 (0, 0) := by
  have hY : build_ybus_matrix
      { s_base := 100
        buses := [mkBus 1 BusType.PQ, mkBus 2 BusType.PQ]
        branches := [⟨1, 1, 2, true, 1, 1, 0, 0, 0, 0, 1, 0⟩]
        loads := [], generators := [], fixed_shunts := []
        bus_map := [] } [(1, 0), (2, 1)] =
      some [[(1/2, -1/2), (-1/2, 1/2)], [(-1/2, 1/2), (1/2, -1/2)]] := by
    simp [build_ybus_matrix, ybusBranchStep, cinv, setAddC, alLookup,
      mkBus, List.range_succ, List.range_zero]
    norm_num
  exact ⟨_, hY, (c9_bprime_and_ybus_symmetric _ _).2 _ hY 0 1⟩

/-! ## Claim C8 -/

theorem dcSlackFold_isSome_mono (buses : List Bus) :
    ∀ (m : List (Nat × ℚ)) (k : Nat), (alLookup k m).isSome = true →
      (alLookup k (buses.foldl dcSlackStep m)).isSome = true := by
  induction buses with
  | nil => intro m k h; exact h
  | cons hd tl ih =>
    intro m k h
    rw [List.foldl_cons]
    by_cases hs : hd.bus_type = BusType.Slack
    · exact ih _ k (by simp [dcSlackStep, hs, alLookup_alInsert_isSome _ _ h])
    · exact ih _ k (by simpa [dcSlackStep, hs] using h)

theorem dcSlackFold_value (buses : List Bus) (K : Nat) :
    ∀ (m : List (Nat × ℚ)),
      ((∃ b ∈ buses, b.bus_id = K ∧ b.bus_type = BusType.Slack) ∨
        alLookup K m = some 0) →
      alLookup K (buses.foldl dcSlackStep m) = some 0 := by
  induction buses with
  | nil =>
    intro m h
    rcases h with ⟨b, hb, _⟩ | h
    · cases hb
    · exact h
  | cons hd tl ih =>
    intro m h
    rw [List.foldl_cons]
    by_cases hid : hd.bus_id = K
    · by_cases hs : hd.bus_type = BusType.Slack
      · refine ih _ (Or.inr ?_)
        rw [dcSlackStep, if_pos hs, hid]
        exact alLookup_alInsert_self K 0 m
      · rcases h with ⟨b, hb, hbe, hbs⟩ | h
        · rcases List.mem_cons.mp hb with hb | hb
          · rw [hb] at hbs; exact absurd hbs hs
          · exact ih _ (Or.inl ⟨b, hb, hbe, hbs⟩)
        · refine ih _ (Or.inr ?_)
          rw [dcSlackStep, if_neg hs]
          exact h
    · have hne : K ≠ hd.bus_id := fun hh => hid hh.symm
      rcases h with ⟨b, hb, hbe, hbs⟩ | h
      · rcases List.mem_cons.mp hb with hb | hb
        · rw [hb] at hbe; exact absurd hbe hid
        · exact ih _ (Or.inl ⟨b, hb, hbe, hbs⟩)
      · refine ih _ (Or.inr ?_)
        rw [dcSlackStep]
        by_cases hs : hd.bus_type = BusType.Slack
        · rw [if_pos hs, alLookup_alInsert_ne hne _ m]
          exact h
        · rw [if_neg hs]
          exact h

theorem dcAngleFold_isSome_mono (busMap : List (Nat × Nat)) (theta : List ℚ)
    (c : ℚ) (buses : List Bus) :
    ∀ (m : List (Nat × ℚ)) (k : Nat), (alLookup k m).isSome = true →
      (alLookup k (buses.foldl (dcAngleStep busMap theta c) m)).isSome
        = true := by
  induction buses with
  | nil => intro m k h; exact h
  | cons hd tl ih =>
    intro m k h
    rw [List.foldl_cons]
    cases hl : alLookup hd.bus_id busMap with
    | none => exact ih _ k (by simpa [dcAngleStep, hl] using h)
    | some idx =>
      exact ih _ k
        (by simp [dcAngleStep, hl, alLookup_alInsert_isSome _ _ h])

theorem dcAngleFold_mem_isSome (busMap : List (Nat × Nat)) (theta : List ℚ)
    (c : ℚ) (buses : List Bus) :
    ∀ (m : List (Nat × ℚ)) (b : Bus), b ∈ buses →
      (alLookup b.bus_id busMap).isSome = true →
      (alLookup b.bus_id
        (buses.foldl (dcAngleStep busMap theta c) m)).isSome = true := by
  induction buses with
  | nil => intro m b hb; cases hb
  | cons hd tl ih =>
    intro m b hb hbm
    rw [List.foldl_cons]
    rcases List.mem_cons.mp hb with hb | hb
    · subst hb
      cases hl : alLookup b.bus_id busMap with
      | none => rw [hl] at hbm; cases hbm
      | some idx =>
        refine dcAngleFold_isSome_mono busMap theta c tl _ b.bus_id ?_
        simp [dcAngleStep, hl, alLookup_alInsert_self]
    · exact ih _ b hb hbm

theorem dcAngleFold_absent (busMap : List (Nat × Nat)) (theta : List ℚ)
    (c : ℚ) (buses : List Bus) (K : Nat) (hK : alLookup K busMap = none) :
    ∀ (m : List (Nat × ℚ)),
      alLookup K (buses.foldl (dcAngleStep busMap theta c) m) =
        alLookup K m := by
  induction buses with
  | nil => intro m; rfl
  | cons hd tl ih =>
    intro m
    rw [List.foldl_cons, ih]
    cases hl : alLookup hd.bus_id busMap with
    | none => simp [dcAngleStep, hl]
    | some idx =>
      have hne : K ≠ hd.bus_id := by
        intro hh
        rw [hh, hl] at hK
        cases hK
      simp [dcAngleStep, hl, alLookup_alInsert_ne hne]

theorem busMapFold_absent (buses : List Bus) (K : Nat)
    (hK : ∀ b ∈ buses, b.bus_id = K → b.bus_type = BusType.Slack) :
    ∀ (st : List (Nat × Nat) × Nat),
      alLookup K (busMapFold buses st).1 = alLookup K st.1 := by
  induction buses with
  | nil => intro st; rfl
  | cons hd tl ih =>
    intro st
    rw [busMapFold, List.foldl_cons]
    have htl : ∀ b ∈ tl, b.bus_id = K → b.bus_type = BusType.Slack :=
      fun b hb => hK b (List.mem_cons_of_mem hd hb)
    by_cases hs : hd.bus_type = BusType.Slack
    · rw [if_pos hs]
      exact ih htl st
    · rw [if_neg hs]
      have hne : K ≠ hd.bus_id := by
        intro hh
        exact hs (hK hd (List.mem_cons_self hd tl) hh.symm)
      have hrec := ih htl (alInsert hd.bus_id st.2 st.1, st.2 + 1)
      rw [alLookup_alInsert_ne hne _ st.1] at hrec
      exact hrec

theorem busMapFold_all_slack (buses : List Bus)
    (h : ∀ b ∈ buses, b.bus_type = BusType.Slack) :
    ∀ st, busMapFold buses st = st := by
  induction buses with
  | nil => intro st; rfl
  | cons hd tl ih =>
    intro st
    rw [busMapFold, List.foldl_cons,
      if_pos (h hd (List.mem_cons_self hd tl))]
    exact ih (fun b hb => h b (List.mem_cons_of_mem hd hb)) st

theorem busMapFold_nil_iff (buses : List Bus) :
    (busMapFold buses ([], 0)).1 = [] ↔
      ∀ b ∈ buses, b.bus_type = BusType.Slack := by
  constructor
  · intro h b hb
    by_contra hns
    have := busMapFold_mem_isSome buses ([], 0) b hb hns
    rw [h] at this
    cases this
  · intro h
    rw [busMapFold_all_slack buses h]

/-- Claim C8: `dc_approximation` returns `none` exactly when the
network has no non-slack bus (equivalently, the rebuilt `bus_map` is
empty) or the linear solve of `B'·θ = P` fails; in every other case it
returns a solution with an angle entry for every bus and, with unique
bus ids, the slack buses at exactly `0` degrees. -/
theorem c8_dc_none_iff (c : ℚ) (net : Network) :
    (dc_approximation c (rebuild_bus_map net) = none ↔
      ((rebuild_bus_map net).bus_map = [] ∨
        dcSolve (rebuild_bus_map net) = none)) ∧
    ((rebuild_bus_map net).bus_map = [] ↔
      ∀ b ∈ net.buses, b.bus_type = BusType.Slack) ∧
    ((net.buses.map (fun b => b.bus_id)).Nodup →
      ∀ sol, dc_approximation c (rebuild_bus_map net) = some sol →
        (∀ b ∈ net.buses, (alLookup b.bus_id sol.bus_angles).isSome = true) ∧
        (∀ b ∈ net.buses, b.bus_type = BusType.Slack →
          alLookup b.bus_id sol.bus_angles = some 0)) := by
  refine ⟨?_, ?_, ?_⟩
  · rw [dc_approximation]
    by_cases hn : (rebuild_bus_map net).bus_map.length = 0
    · simp only [hn, if_true]
      simp [List.length_eq_zero.mp hn]
    · simp only [hn, if_false]
      have hne : ¬((rebuild_bus_map net).bus_map = []) := by
        intro h
        rw [h] at hn
        exact hn rfl
      cases hs : dcSolve (rebuild_bus_map net) with
      | none => simp [hne]
      | some theta => simp [hne, hs]
  · show (busMapFold net.buses ([], 0)).1 = [] ↔ _
    exact busMapFold_nil_iff net.buses
  · intro hnd sol hsol
    have hinj := List.inj_on_of_nodup_map hnd
    rw [dc_approximation] at hsol
    by_cases hn : (rebuild_bus_map net).bus_map.length = 0
    · rw [if_pos hn] at hsol
      cases hsol
    · rw [if_neg hn] at hsol
      cases hs : dcSolve (rebuild_bus_map net) with
      | none => rw [hs] at hsol; cases hsol
      | some theta =>
        rw [hs] at hsol
        simp only [Option.some_inj] at hsol
        have hangles : sol.bus_angles = net.buses.foldl
            (dcAngleStep (rebuild_bus_map net).bus_map theta c)
            (net.buses.foldl dcSlackStep []) := by
          rw [← hsol]
          rfl
        constructor
        · intro b hb
          rw [hangles]
          by_cases hbs : b.bus_type = BusType.Slack
          · refine dcAngleFold_isSome_mono _ theta c net.buses _ b.bus_id ?_
            have := dcSlackFold_value net.buses b.bus_id []
              (Or.inl ⟨b, hb, rfl, hbs⟩)
            rw [this]
            rfl
          · refine dcAngleFold_mem_isSome _ theta c net.buses _ b hb ?_
            show (alLookup b.bus_id (busMapFold net.buses ([], 0)).1).isSome
              = true
            exact busMapFold_mem_isSome net.buses ([], 0) b hb hbs
        · intro b hb hbs
          rw [hangles]
          have habs : alLookup b.bus_id (rebuild_bus_map net).bus_map
              = none := by
            show alLookup b.bus_id (busMapFold net.buses ([], 0)).1 = none
            rw [busMapFold_absent net.buses b.bus_id ?_ ([], 0)]
            · rfl
            · intro bb hbb hbbe
              have : bb = b := hinj hbb hb hbbe
              rw [this]
              exact hbs
          rw [dcAngleFold_absent _ theta c net.buses b.bus_id habs]
          exact dcSlackFold_value net.buses b.bus_id []
            (Or.inl ⟨b, hb, rfl, hbs⟩)

/-- Witness for C8 at scenario S1's network: the DC solve succeeds and
the returned angle map has an entry for PQ bus 2 and exactly `0` for
slack bus 1. -/
theorem c8_dc_none_iff_witness :
    ∃ sol, dc_approximation 1 (rebuild_bus_map netS1) = some sol ∧
      (alLookup 2 sol.bus_angles).isSome = true ∧
      alLookup 1 sol.bus_angles = some 0 := by
  have hsol : dc_approximation 1 (rebuild_bus_map netS1) =
      some ⟨[(1, 0), (2, 1/20)], [(1, -50)]⟩ := by
    simp [dc_approximation, dcSlackStep, dcAngleStep, dcFlowStep, dcSolve,
      dcInjections, bPrimeMat, bPrimeStep, gaussSolve, gaussAux, pickRow,
      reduceRow, backSub, rebuild_bus_map, busMapFold, alInsert, alLookup,
      setAdd, mkBus, netS1, List.range_succ, List.range_zero]
    norm_num
  have h := (c8_dc_none_iff 1 netS1).2.2 (by decide) _ hsol
  exact ⟨_, hsol, h.1 (mkBus 2 BusType.PQ) (by decide),
    h.2 (mkBus 1 BusType.Slack) (by decide) rfl⟩

/-! ## Claim C10 -/

theorem eraseShunts_s_base (net : Network) :
    (eraseShunts net).s_base = net.s_base := rfl

theorem eraseShunts_buses (net : Network) :
    (eraseShunts net).buses = net.buses.map eraseBus := rfl

theorem eraseShunts_branches (net : Network) :
    (eraseShunts net).branches = net.branches := rfl

theorem eraseShunts_loads (net : Network) :
    (eraseShunts net).loads = net.loads := rfl

theorem eraseShunts_generators (net : Network) :
    (eraseShunts net).generators = net.generators := rfl

theorem eraseShunts_fixed_shunts (net : Network) :
    (eraseShunts net).fixed_shunts = net.fixed_shunts := rfl

theorem eraseShunts_bus_map (net : Network) :
    (eraseShunts net).bus_map = net.bus_map := rfl

theorem dcSlackFold_erase (l : List Bus) (m : List (Nat × ℚ)) :
    (l.map eraseBus).foldl dcSlackStep m = l.foldl dcSlackStep m := by
  rw [List.foldl_map]
  rfl

theorem dcAngleFold_erase (busMap : List (Nat × Nat)) (theta : List ℚ)
    (c : ℚ) (l : List Bus) (m : List (Nat × ℚ)) :
    (l.map eraseBus).foldl (dcAngleStep busMap theta c) m =
      l.foldl (dcAngleStep busMap theta c) m := by
  rw [List.foldl_map]
  rfl

/-- `dc_approximation` never reads the bus shunt fields. -/
theorem dc_eraseShunts (c : ℚ) (net : Network) :
    dc_approximation c (eraseShunts net) = dc_approximation c net := by
  rw [dc_approximation, dc_approximation]
  have h1 : dcSolve (eraseShunts net) = dcSolve net := rfl
  simp only [h1, eraseShunts_bus_map, eraseShunts_buses,
    eraseShunts_branches, eraseShunts_s_base, dcSlackFold_erase,
    dcAngleFold_erase]

theorem scanBuses_erase (l : List Bus) :
    ∀ (s : Option Nat) (pv pq : List Nat),
      scanBuses (l.map eraseBus) s pv pq = scanBuses l s pv pq := by
  induction l with
  | nil => intro s pv pq; rfl
  | cons hd tl ih =>
    intro s pv pq
    rw [List.map_cons]
    cases hb : hd.bus_type with
    | Slack =>
      cases s with
      | some x => simp [scanBuses, eraseBus, hb]
      | none => simp [scanBuses, eraseBus, hb, ih]
    | PV => simp [scanBuses, eraseBus, hb, ih]
    | PQ => simp [scanBuses, eraseBus, hb, ih]
    | OOS => simp [scanBuses, eraseBus, hb, ih]

theorem mkBusIdxMap_erase (l : List Bus) :
    mkBusIdxMap (l.map eraseBus) = mkBusIdxMap l := by
  rw [mkBusIdxMap, mkBusIdxMap, List.enum_map, List.foldl_map]
  rfl

theorem schedInit_erase (l : List Bus) :
    schedInit (l.map eraseBus) = schedInit l := by
  rw [schedInit, schedInit, List.foldl_map]
  rfl

theorem initVD_erase (c : ℚ) (s : Nat) (l : List Bus) :
    initVD c s (l.map eraseBus) = initVD c s l := by
  rw [initVD, initVD, List.foldl_map]
  rfl

theorem calcP_erase (cosF sinF : ℚ → ℚ) (buses : List Bus)
    (Y : List (List (ℚ × ℚ))) (v d : List (Nat × ℚ)) :
    calcP cosF sinF (buses.map eraseBus) Y v d =
      calcP cosF sinF buses Y v d := by
  rw [calcP, calcP, List.enum_map]
  simp only [List.map_map]
  rfl

theorem calcQ_erase (cosF sinF : ℚ → ℚ) (buses : List Bus)
    (Y : List (List (ℚ × ℚ))) (v d : List (Nat × ℚ)) :
    calcQ cosF sinF (buses.map eraseBus) Y v d =
      calcQ cosF sinF buses Y v d := by
  rw [calcQ, calcQ, List.enum_map]
  simp only [List.map_map]
  rfl

theorem mismatchVec_erase (s : Nat) (buses : List Bus)
    (pS qS : List (Nat × ℚ)) (pC qC : List ℚ) (busIdx : List (Nat × Nat)) :
    mismatchVec s (buses.map eraseBus) pS qS pC qC busIdx =
      mismatchVec s buses pS qS pC qC busIdx := by
  rw [mismatchVec, mismatchVec, List.filterMap_map, List.filterMap_map]
  rfl

theorem idxMapsFold_erase (s : Nat) (buses : List Bus) :
    idxMapsFold s (buses.map eraseBus) = idxMapsFold s buses := by
  rw [idxMapsFold, idxMapsFold, List.foldl_map]
  rfl

theorem jacobianBlocks_erase (cosF sinF : ℚ → ℚ) (s : Nat)
    (buses : List Bus) (busIdx nsIdx pqIdx : List (Nat × Nat))
    (Y : List (List (ℚ × ℚ))) (v d : List (Nat × ℚ)) (pC qC : List ℚ) :
    jacobianBlocks cosF sinF s (buses.map eraseBus) busIdx nsIdx pqIdx Y
        v d pC qC =
      jacobianBlocks cosF sinF s buses busIdx nsIdx pqIdx Y v d pC qC := by
  rw [jacobianBlocks, jacobianBlocks]
  simp only [List.foldl_map]
  rfl

theorem applyUpdates_erase (s : Nat) (buses : List Bus) (dx : List ℚ)
    (v d : List (Nat × ℚ)) :
    applyUpdates s (buses.map eraseBus) dx v d =
      applyUpdates s buses dx v d := by
  rw [applyUpdates, applyUpdates, List.foldl_map]
  rfl

theorem solutionOut_erase (c : ℚ) (buses : List Bus)
    (v d : List (Nat × ℚ)) :
    solutionOut c (buses.map eraseBus) v d = solutionOut c buses v d := by
  rw [solutionOut, solutionOut, List.foldl_map]
  rfl

theorem build_ybus_erase (net : Network) (m : List (Nat × Nat)) :
    build_ybus_matrix (eraseShunts net) m = build_ybus_matrix net m := by
  rw [build_ybus_matrix, build_ybus_matrix]
  simp only [eraseShunts_buses, eraseShunts_branches,
    eraseShunts_fixed_shunts, eraseShunts_s_base, List.length_map]

theorem nrIter_erase (c : ℚ) (cosF sinF : ℚ → ℚ) (buses : List Bus)
    (Y : List (List (ℚ × ℚ))) (pS qS : List (Nat × ℚ)) (slackId : Nat)
    (busIdx : List (Nat × Nat)) :
    ∀ (fuel itn : Nat) (v d : List (Nat × ℚ)) (log : List String),
      nrIter c cosF sinF (buses.map eraseBus) Y pS qS slackId busIdx
        fuel itn v d log =
      nrIter c cosF sinF buses Y pS qS slackId busIdx fuel itn v d log := by
  intro fuel
  induction fuel with
  | zero => intro itn v d log; rfl
  | succ fuel ih =>
    intro itn v d log
    rw [nrIter, nrIter]
    simp only [calcP_erase, calcQ_erase, mismatchVec_erase,
      idxMapsFold_erase, jacobianBlocks_erase, applyUpdates_erase,
      solutionOut_erase, ih]

/-- `newton_raphson_solution` never reads the bus shunt fields. -/
theorem nr_eraseShunts (c : ℚ) (cosF sinF : ℚ → ℚ) (net : Network) :
    newton_raphson_solution c cosF sinF (eraseShunts net) =
      newton_raphson_solution c cosF sinF net := by
  rw [newton_raphson_solution, newton_raphson_solution]
  simp only [eraseShunts_buses, eraseShunts_s_base, eraseShunts_loads,
    eraseShunts_generators, List.length_map, scanBuses_erase,
    mkBusIdxMap_erase, schedInit_erase, initVD_erase, nrIter_erase]
  have hy : ∀ m, build_ybus_matrix (eraseShunts net) m =
      build_ybus_matrix net m := fun m => build_ybus_erase net m
  simp only [eraseShunts_buses] at hy
  simp only [hy]

/-- Claim C10: neither solver reads the bus-level shunt fields — any
two networks identical except for their buses' `real_shunt` /
`imag_shunt` values produce identical `DcSolution` options and
identical `AcSolution`s (voltages, angles and log). -/
theorem c10_bus_shunt_fields_unread (c : ℚ) (cosF sinF : ℚ → ℚ)
    (n1 n2 : Network) (h : eraseShunts n1 = eraseShunts n2) :
    dc_approximation c n1 = dc_approximation c n2 ∧
    newton_raphson_solution c cosF sinF n1 =
      newton_raphson_solution c cosF sinF n2 := by
  constructor
  · rw [← dc_eraseShunts c n1, ← dc_eraseShunts c n2, h]
  · rw [← nr_eraseShunts c cosF sinF n1, ← nr_eraseShunts c cosF sinF n2, h]

/-- Witness for C10 at two concrete one-bus networks that differ only
in the bus shunt fields. -/
theorem c10_bus_shunt_fields_unread_witness :
    dc_approximation 1
        { s_base := 100
          buses := [⟨1, BusType.Slack, true, 1, 0, 5, 7⟩]
          branches := [], loads := [], generators := [], fixed_shunts := []
          bus_map := [] } =
      dc_approximation 1
        { s_base := 100
          buses := [⟨1, BusType.Slack, true, 1, 0, 0, 3⟩]
          branches := [], loads := [], generators := [], fixed_shunts := []
          bus_map := [] } ∧
    newton_raphson_solution 1 id id
        { s_base := 100
          buses := [⟨1, BusType.Slack, true, 1, 0, 5, 7⟩]
          branches := [], loads := [], generators := [], fixed_shunts := []
          bus_map := [] } =
      newton_raphson_solution 1 id id
        { s_base := 100
          buses := [⟨1, BusType.Slack, true, 1, 0, 0, 3⟩]
          branches := [], loads := [], generators := [], fixed_shunts := []
          bus_map := [] } :=
  c10_bus_shunt_fields_unread 1 id id _ _ rfl

end Mantis
